import Mathlib

/-
Verification of the DokuParserJS markup engine (src/dokuparserjs.js, final
class version) against its natural-language specification.

Strings are modelled as lists of characters. Every function is a direct
translation of the corresponding JavaScript; regular expressions are
translated into explicit scanners with the same matching semantics
(leftmost match, non-greedy quantifiers as shortest-first search, global
replacement continuing after each match without rescanning the inserted
text). Fuel arguments make every scanner structurally recursive; each
scanner consumes at least one character per step, so a fuel of the input
length is always sufficient.
-/

namespace DokuParserJS

abbrev Str := List Char

deriving instance DecidableEq for Except

/-- The characters of a string literal, the bridge from Lean string syntax. -/
def cs (s : String) : Str := s.data

/-- JS whitespace as used by trim and the regex class backslash-s
(ASCII subset: space, tab, newline, carriage return). -/
def wsChar (c : Char) : Bool :=
  c = ' ' || c = '\t' || c = '\n' || c = '\r'

/-- JS String.prototype.trim. -/
def jsTrim (s : Str) : Str :=
  ((s.dropWhile (fun c => wsChar c)).reverse.dropWhile (fun c => wsChar c)).reverse

/-- JS String.prototype.split with a one-character separator
(so that the empty string splits to one empty piece). -/
def splitOnChar (sep : Char) : Str → List Str
  | [] => [[]]
  | c :: rest =>
    match splitOnChar sep rest with
    | [] => [[c]]
    | h :: t => if c = sep then [] :: h :: t else (c :: h) :: t

/-- Split a string at the first occurrence of `pat`: the part before and
the part after (JS indexOf plus slicing). -/
def findSplit (pat : Str) : Str → Option (Str × Str)
  | [] => if pat = [] then some ([], []) else none
  | c :: rest =>
    if pat.isPrefixOf (c :: rest) then some ([], (c :: rest).drop pat.length)
    else (findSplit pat rest).map (fun p => (c :: p.1, p.2))

/-- Split a string at the last occurrence of `pat` (JS lastIndexOf). -/
def lastSplit (pat : Str) : Str → Option (Str × Str)
  | [] => if pat = [] then some ([], []) else none
  | c :: rest =>
    match lastSplit pat rest with
    | some p => some (c :: p.1, p.2)
    | none =>
      if pat.isPrefixOf (c :: rest) then some ([], (c :: rest).drop pat.length)
      else none

/-- Whether `pat` occurs as a contiguous substring (JS String.includes). -/
def containsStr (pat s : Str) : Bool := (findSplit pat s).isSome

/-- JS String.replace with a plain-string pattern: first occurrence only. -/
def replaceFirst (pat rep s : Str) : Str :=
  match findSplit pat s with
  | some (a, b) => a ++ rep ++ b
  | none => s

def replaceAllAux (pat rep : Str) : Nat → Str → Str
  | 0, s => s
  | _ + 1, [] => []
  | f + 1, c :: rest =>
    if pat.isPrefixOf (c :: rest) then rep ++ replaceAllAux pat rep f ((c :: rest).drop pat.length)
    else c :: replaceAllAux pat rep f rest

/-- JS String.replace with a global plain-string regex: every occurrence,
scanning left to right, never rescanning the replacement. -/
def replaceAll (pat rep s : Str) : Str := replaceAllAux pat rep s.length s

/-- Decimal digits of a natural number, as JS template interpolation
renders an array index. -/
def natDigitsAux : Nat → Nat → Str
  | 0, _ => []
  | f + 1, n =>
    if n < 10 then [Char.ofNat (48 + n)]
    else natDigitsAux f (n / 10) ++ [Char.ofNat (48 + n % 10)]

def natDigits (n : Nat) : Str := natDigitsAux (n + 1) n

/-- escapeEntities (src line 2213): the five sequential global replaces,
in source order, ampersand first. -/
def escapeEntities (s : Str) : Str :=
  replaceAll [Char.ofNat 39] (cs "&#39" ++ [Char.ofNat 59])
    (replaceAll (cs "\x22") (cs "&quot;")
      (replaceAll (cs ">") (cs "&gt;")
        (replaceAll (cs "<") (cs "&lt;")
          (replaceAll (cs "&") (cs "&amp;") s))))

/-- ASCII lowercasing, as JS toLowerCase acts on the ASCII inputs used here. -/
def lowerChar (c : Char) : Char :=
  if 'A' ≤ c ∧ c ≤ 'Z' then Char.ofNat (c.toNat + 32) else c

def lowerStr (s : Str) : Str := s.map lowerChar

/-- The character class of the namespace cleanup regex [^a-z0-9:]/gi:
kept characters are ASCII letters (either case), digits and the colon. -/
def nsAllowedChar (c : Char) : Bool :=
  ('a' ≤ c && c ≤ 'z') || ('A' ≤ c && c ≤ 'Z') || ('0' ≤ c && c ≤ '9') || c = ':'

/-- Collapse every run of colons to a single colon (regex colon-plus, global). -/
def collapseColonsAux : Nat → Str → Str
  | 0, s => s
  | _ + 1, [] => []
  | f + 1, c :: rest =>
    if c = ':' then ':' :: collapseColonsAux f (rest.dropWhile (fun d => d = ':'))
    else c :: collapseColonsAux f rest

def collapseColons (s : Str) : Str := collapseColonsAux s.length s

/-- Strip one leading colon (regex anchored colon, non-global). -/
def dropLeadColon : Str → Str
  | ':' :: r => r
  | s => s

/-- Strip one trailing colon. -/
def dropTrailColon (s : Str) : Str :=
  match s.reverse with
  | ':' :: r => r.reverse
  | _ => s

/-- The leading parent-reference loop of resolveNamespace (src lines 1730-1739):
strip each leading ".." (three characters when followed by a colon), counting. -/
def dotdotStrip : Nat → Str → Nat → (Str × Nat)
  | 0, s, k => (s, k)
  | f + 1, s, k =>
    if (cs "..").isPrefixOf s then
      if (cs "..:").isPrefixOf s then dotdotStrip f (s.drop 3) (k + 1)
      else dotdotStrip f (s.drop 2) (k + 1)
    else (s, k)

/-- Pop up to `k` final namespace segments, stopping at the root. -/
def popParts : Nat → List Str → List Str
  | 0, ps => ps
  | k + 1, ps => if ps.isEmpty then ps else popParts k ps.dropLast

def joinColon (ps : List Str) : Str := List.intercalate (cs ":") ps

/-- resolveNamespace (src lines 1720-1766), the final class version: start-page
detection, absolute / parent / current / default branches, then the cleanup
chain (collapse colon runs, strip one leading and one trailing colon, delete
every character outside [a-z0-9:] case-insensitively), then the start-page
suffix. -/
def resolveNamespace (target currentNamespace : Str) : Str :=
  let isStartPage := (cs ":").isSuffixOf target
  let target1 := if isStartPage then target.dropLast else target
  let resolved :=
    if (cs ":").isPrefixOf target1 then
      target1.drop 1
    else if (cs "..").isPrefixOf target1 then
      let sk := dotdotStrip target1.length target1 0
      let nsParts := if currentNamespace.isEmpty then [] else splitOnChar ':' currentNamespace
      let parentNs := joinColon (popParts sk.2 nsParts)
      (if parentNs.isEmpty then [] else parentNs ++ cs ":") ++ sk.1
    else if (cs ".").isPrefixOf target1 then
      let tempTarget := if (cs ".:").isPrefixOf target1 then target1.drop 2 else target1.drop 1
      currentNamespace ++ (if currentNamespace.isEmpty then [] else cs ":") ++ tempTarget
    else
      currentNamespace ++ (if currentNamespace.isEmpty then [] else cs ":") ++ target1
  let cleaned := (dropTrailColon (dropLeadColon (collapseColons resolved))).filter
    (fun c => nsAllowedChar c)
  if isStartPage then cleaned ++ cs ":start" else cleaned

/-- The per-parse placeholder and footnote state held on the parser instance:
linkPlaceholders, nowikiPlaceholders, percentPlaceholders, footnoteContent
(the Map modelled as its insertion-ordered key list; the stored index of a
key is its position). -/
structure RSt where
  links : List Str
  nowikis : List Str
  percents : List Str
  fns : List Str
deriving DecidableEq, Repr

def emptyRSt : RSt := ⟨[], [], [], []⟩

/-- Position of the first occurrence of `x` (Map.get on the insertion list). -/
def idxOf (x : Str) : List Str → Option Nat
  | [] => none
  | y :: rest => if y = x then some 0 else (idxOf x rest).map (· + 1)

/-- One global-regex replacement pass: at each position try the matcher,
which returns the replacement text, the remainder after the match and the
new state; on failure copy one character and move on (the replacement is
never rescanned, as with a JS global regex). Every matcher used here
consumes at least one character, so fuel = length + 1 runs to completion. -/
def scanRep (m : RSt → Str → Option (Str × Str × RSt)) : Nat → RSt → Str → RSt × Str
  | 0, st, s => (st, s)
  | f + 1, st, s =>
    match m st s with
    | some (rep, rest, st') =>
      let r := scanRep m f st' rest
      (r.1, rep ++ r.2)
    | none =>
      match s with
      | [] => (st, [])
      | c :: t =>
        let r := scanRep m f st t
        (r.1, c :: r.2)

def runRule (m : RSt → Str → Option (Str × Str × RSt)) (st : RSt) (s : Str) : RSt × Str :=
  scanRep m (s.length + 1) st s

/-- First occurrence of `pat` at an index of at least one: the search a
non-greedy one-or-more capture before a closing delimiter performs. -/
def findSplit1 (pat : Str) : Str → Option (Str × Str)
  | [] => none
  | c :: rest => (findSplit pat rest).map (fun p => (c :: p.1, p.2))

/-- Matcher for a wrap rule such as bold: an opening delimiter, a shortest
one-or-more content without newline (the dot of .+? does not match a
newline), the closing delimiter; the content is wrapped between pre and
post. -/
def pairMatcher (opn cls pre post : Str) (st : RSt) (s : Str) : Option (Str × Str × RSt) :=
  if opn.isPrefixOf s then
    match findSplit1 cls (s.drop opn.length) with
    | some (content, rest) =>
      if content.contains '\n' then none
      else some (pre ++ content ++ post, rest, st)
    | none => none
  else none

/-- Rule 0, nowiki (src line 1541): capture up to the first closing tag
(the capture is zero-or-more and may span newlines), push the raw content
and stand in a placeholder token. -/
def nowikiMatcher (st : RSt) (s : Str) : Option (Str × Str × RSt) :=
  if (cs "<nowiki>").isPrefixOf s then
    match findSplit (cs "</nowiki>") (s.drop 8) with
    | some (content, rest) =>
      some (cs "[NOWIKI_" ++ natDigits st.nowikis.length ++ cs "]", rest,
        { st with nowikis := st.nowikis ++ [content] })
    | none => none
  else none

/-- Rule 1, the percent escape (src line 1549). -/
def percentMatcher (st : RSt) (s : Str) : Option (Str × Str × RSt) :=
  if (cs "%%").isPrefixOf s then
    match findSplit (cs "%%") (s.drop 2) with
    | some (content, rest) =>
      some (cs "[PERCENT_" ++ natDigits st.percents.length ++ cs "]", rest,
        { st with percents := st.percents ++ [content] })
    | none => none
  else none

def asciiLetter (c : Char) : Bool := ('a' ≤ c && c ≤ 'z') || ('A' ≤ c && c ≤ 'Z')

def asciiDigit (c : Char) : Bool := '0' ≤ c && c ≤ '9'

def alnumChar (c : Char) : Bool := asciiLetter c || asciiDigit c

def emailLocalChar (c : Char) : Bool :=
  alnumChar c || c = '.' || c = '_' || c = '%' || c = '+' || c = '-'

def emailDomChar (c : Char) : Bool := alnumChar c || c = '.' || c = '-'

/-- The domain tail of the email regex: a one-or-more domain-character run,
a dot, then at least two letters, anchored at the end. Equivalent to a
check on the last dot, since any earlier split leaves a non-letter in the
top-level part. -/
def emailDomOk (dom : Str) : Bool :=
  match lastSplit (cs ".") dom with
  | some (d, tld) => !d.isEmpty && decide (2 ≤ tld.length) && tld.all (fun c => asciiLetter c)
  | none => false

/-- The anchored email regex of the link rule (src line 1566). -/
def emailTest (s : Str) : Bool :=
  let loc := s.takeWhile (fun c => emailLocalChar c)
  if loc.isEmpty then false
  else
    match s.drop loc.length with
    | '@' :: dom => (dom.all fun c => emailDomChar c) && emailDomOk dom
    | _ => false

def uriUnreserved (c : Char) : Bool :=
  alnumChar c || (cs "-_.!~*'()").contains c

def utf8Bytes (c : Char) : List Nat :=
  let n := c.toNat
  if n < 0x80 then [n]
  else if n < 0x800 then [0xC0 + n / 0x40, 0x80 + n % 0x40]
  else if n < 0x10000 then [0xE0 + n / 0x1000, 0x80 + (n / 0x40) % 0x40, 0x80 + n % 0x40]
  else [0xF0 + n / 0x40000, 0x80 + (n / 0x1000) % 0x40, 0x80 + (n / 0x40) % 0x40, 0x80 + n % 0x40]

def hexDigitUpper (n : Nat) : Char :=
  if n < 10 then Char.ofNat (48 + n) else Char.ofNat (55 + n)

def encodeURIComponent (s : Str) : Str :=
  (s.map fun c =>
    if uriUnreserved c then [c]
    else (utf8Bytes c).foldr (fun b acc => '%' :: hexDigitUpper (b / 16) :: hexDigitUpper (b % 16) :: acc) []).foldr
    (· ++ ·) []

/-- title attribute obfuscation used for mail links: spaces to [at], dots
to [dot], in source order. -/
def mailObfuscate (e : Str) : Str :=
  replaceAll (cs ".") (cs " [dot] ") (replaceAll (cs " ") (cs " [at] ") e)

/-- The target-and-text search of the link rule regex (src line 1558): the
target grows one character at a time (non-greedy, no newline); after each
step first try the closing bracket pair, then a pipe followed by a shortest
one-or-more display text before the closing pair. -/
def linkInnerAux : Nat → Str → Str → Option (Str × Option Str × Str)
  | 0, _, _ => none
  | f + 1, acc, s =>
    match s with
    | [] => none
    | c :: rest =>
      if c = '\n' then none
      else
        let acc' := c :: acc
        if (cs "]]").isPrefixOf rest then some (acc'.reverse, none, rest.drop 2)
        else
          match rest with
          | '|' :: afterPipe =>
            (match findSplit1 (cs "]]") afterPipe with
              | some (txt, rest') =>
                if txt.contains '\n' then linkInnerAux f acc' rest
                else some (acc'.reverse, some txt, rest')
              | none => linkInnerAux f acc' rest)
          | _ => linkInnerAux f acc' rest

def linkInner (s : Str) : Option (Str × Option Str × Str) := linkInnerAux s.length [] s

def quoteCh : Char := '\x22'

def q (s : Str) : Str := quoteCh :: s ++ [quoteCh]

/-- The replacement of the link rule (src lines 1559-1606): email, external,
interwiki, escaped and internal branches; the anchor is deferred through a
LINK placeholder except for the unknown-interwiki and escaped cases. -/
def linkBuild (ns : Str) (iw : List (Str × Str)) (st : RSt) (target0 : Str)
    (text0 : Option Str) (matched : Str) : Str × RSt :=
  let target := jsTrim target0
  let text := match text0 with | some t => jsTrim t | none => []
  let display := if text.isEmpty then target else text
  if emailTest target then
    let href := cs "mailto:" ++ target
    let attrs := cs " title=" ++ q (mailObfuscate target)
    let tok := cs "[LINK_" ++ natDigits st.links.length ++ cs "]"
    (tok, { st with links := st.links ++
      [cs "<a href=" ++ q href ++ cs " class=" ++ q (cs "mail") ++ attrs ++ cs ">" ++ display ++ cs "</a>"] })
  else if (cs "http://").isPrefixOf target || (cs "https://").isPrefixOf target then
    let short :=
      let t1 := if (cs "https://").isPrefixOf target then target.drop 8
        else if (cs "http://").isPrefixOf target then target.drop 7 else target
      let t2 := if (cs "www.").isPrefixOf t1 then t1.drop 4 else t1
      if (cs "/").isSuffixOf t2 then t2.dropLast else t2
    let display := if text.isEmpty then short else text
    let attrs := cs " title=" ++ q target ++ cs " rel=" ++ q (cs "nofollow")
    let tok := cs "[LINK_" ++ natDigits st.links.length ++ cs "]"
    (tok, { st with links := st.links ++
      [cs "<a href=" ++ q target ++ cs " class=" ++ q (cs "urlextern") ++ attrs ++ cs ">" ++ display ++ cs "</a>"] })
  else if target.contains '>' then
    let parts := splitOnChar '>' target
    let wiki := parts.headD []
    let page := (parts.drop 1).headD []
    match iw.find? (fun p => p.1 = wiki) with
    | some p =>
      let href := p.2 ++ encodeURIComponent page
      let display := if text.isEmpty then page else text
      let attrs := cs " title=" ++ q (p.2 ++ page) ++ cs " data-wiki-id=" ++ q (wiki ++ cs ":" ++ page)
      let tok := cs "[LINK_" ++ natDigits st.links.length ++ cs "]"
      (tok, { st with links := st.links ++
        [cs "<a href=" ++ q href ++ cs " class=" ++ q (cs "interwiki iw_" ++ wiki) ++ attrs ++ cs ">" ++ display ++ cs "</a>"] })
    | none => (matched, st)
  else if (cs "\\").isPrefixOf target then
    (display, st)
  else
    let path := resolveNamespace target ns
    let href0 := cs "/" ++ replaceAll (cs ":") (cs "/") path
    let hcα : Str × Str × Str :=
      if target.contains '#' then
        let parts := splitOnChar '#' target
        let page := parts.headD []
        let sect := (parts.drop 1).headD []
        let resolvedPage := resolveNamespace (if page.isEmpty then cs "syntax" else page) ns
        let href := cs "/" ++ replaceAll (cs ":") (cs "/") resolvedPage ++
          (if sect.isEmpty then [] else cs "#" ++ sect)
        (href, cs "wikilink2", cs " title=" ++ q target ++ cs " data-wiki-id=" ++ q target)
      else if (cs ":start").isSuffixOf path then (href0, cs "wikilink1 curid", [])
      else (href0, cs "wikilink1", [])
    let attrs := hcα.2.2 ++ cs " data-wiki-id=" ++ q target
    let tok := cs "[LINK_" ++ natDigits st.links.length ++ cs "]"
    (tok, { st with links := st.links ++
      [cs "<a href=" ++ q hcα.1 ++ cs " class=" ++ q hcα.2.1 ++ attrs ++ cs ">" ++ display ++ cs "</a>"] })

/-- Rule 2, the link rule. -/
def linkMatcher (ns : Str) (iw : List (Str × Str)) (st : RSt) (s : Str) :
    Option (Str × Str × RSt) :=
  if (cs "[[").isPrefixOf s then
    match linkInner (s.drop 2) with
    | some (target, text, rest) =>
      let matched := cs "[[" ++ (s.drop 2).take ((s.drop 2).length - rest.length)
      let r := linkBuild ns iw st target text matched
      some (r.1, rest, r.2)
    | none => none
  else none

def obrace : Char := '\x7b'

def cbrace : Char := '\x7d'

def imgSrcChar (c : Char) : Bool := !(c = '|' || c = obrace || c = cbrace)

/-- The trailing capture of the image regex: a greedy whitespace run then
the closing braces (a shorter run would put whitespace where a brace must
stand, so only the maximal run can match). -/
def imgClose (s : Str) : Option (Str × Str) :=
  let w := s.takeWhile (fun c => wsChar c)
  let r := s.drop w.length
  if [cbrace, cbrace].isPrefixOf r then some (w, r.drop 2) else none

/-- Shortest one-or-more alt text before the image closing (the optional
pipe group), no newline. -/
def imgAltScan : Nat → Str → Str → Option (Str × Str × Str)
  | 0, _, _ => none
  | f + 1, acc, s =>
    match s with
    | [] => none
    | c :: rest =>
      if c = '\n' then none
      else
        match imgClose rest with
        | some (w, r) => some (acc ++ [c], w, r)
        | none => imgAltScan f (acc ++ [c]) rest

/-- The optional pipe-alt group (present first, absent as fallback). -/
def imgAlt (s : Str) : Option (Option Str × Str × Str) :=
  match s with
  | '|' :: rest =>
    ((imgAltScan rest.length [] rest).map fun r => (some r.1, r.2.1, r.2.2))
      <|> ((imgClose s).map fun r => (none, r.1, r.2))
  | _ => (imgClose s).map fun r => (none, r.1, r.2)

/-- The optional link-parameter group: question mark then nolink, or
linkonly, in alternation order, with the absent variant as fallback. -/
def imgLinkParam (s : Str) : Option (Option Str × Option Str × Str × Str) :=
  (if (cs "?nolink").isPrefixOf s then
    (imgAlt (s.drop 7)).map fun r => (some (cs "nolink"), r.1, r.2.1, r.2.2)
  else none)
  <|> (if (cs "?linkonly").isPrefixOf s then
    (imgAlt (s.drop 9)).map fun r => (some (cs "linkonly"), r.1, r.2.1, r.2.2)
  else none)
  <|> ((imgAlt s).map fun r => (none, r.1, r.2.1, r.2.2))

/-- The optional size group: question mark, greedy digits, optional x and
greedy digits. Shortening a greedy digit run leaves a digit where the next
group needs a marker character, so only the maximal runs are tried. -/
def imgSizePart (s : Str) :
    Option (Option Str × Option Str × Option Str × Option Str × Str × Str) :=
  (match s with
    | '?' :: r =>
      let d := r.takeWhile (fun c => asciiDigit c)
      if d.isEmpty then none
      else
        let r1 := r.drop d.length
        ((match r1 with
          | 'x' :: r2 =>
            let h := r2.takeWhile (fun c => asciiDigit c)
            if h.isEmpty then none
            else (imgLinkParam (r2.drop h.length)).map fun p =>
              (some d, some h, p.1, p.2.1, p.2.2.1, p.2.2.2)
          | _ => none)
        <|> (imgLinkParam r1).map fun p => (some d, none, p.1, p.2.1, p.2.2.1, p.2.2.2))
    | _ => none)
  <|> (imgLinkParam s).map fun p => (none, none, p.1, p.2.1, p.2.2.1, p.2.2.2)

/-- Shortest-first source expansion of the image regex: extend the source
by one character from the restricted class, trying the full tail after
each step. -/
def imgSrcScan : Nat → Str → Str →
    Option (Str × Option Str × Option Str × Option Str × Option Str × Str × Str)
  | 0, _, _ => none
  | f + 1, acc, s =>
    match s with
    | [] => none
    | c :: rest =>
      if imgSrcChar c then
        let acc' := acc ++ [c]
        match imgSizePart rest with
        | some p => some (acc', p.1, p.2.1, p.2.2.1, p.2.2.2.1, p.2.2.2.2.1, p.2.2.2.2.2)
        | none => imgSrcScan f acc' rest
      else none

def firstSome : List (Option α) → Option α
  | [] => none
  | o :: rest => o <|> firstSome rest

/-- The replacement of the image rule (src lines 1618-1637). -/
def imageBuild (leading : Str) (src0 : Str) (w h lp alt : Option Str)
    (trailing : Str) : Str :=
  let className :=
    if leading.isEmpty && trailing.isEmpty then cs "mediacenter"
    else if !leading.isEmpty && trailing.isEmpty then cs "mediaright"
    else if leading.isEmpty && !trailing.isEmpty then cs "medialeft"
    else []
  let src1 := jsTrim src0
  let isLinkOnly := lp = some (cs "linkonly") || lp = some (cs "nolink")
  let src :=
    if (cs "http").isPrefixOf src1 then src1
    else
      let s2 := if (cs ":").isPrefixOf src1 then src1.drop 1 else src1
      cs "/media/" ++ replaceAll (cs ":") (cs "/") s2
  if isLinkOnly then
    let txt := match alt with
      | some a => a
      | none => (splitOnChar '/' src).getLastD []
    cs "<a href=" ++ q src ++ cs " class=" ++ q (cs "media") ++ cs " rel=" ++
      q (cs "nofollow") ++ cs ">" ++ txt ++ cs "</a>"
  else
    let widthAttr := match w with | some d => cs " width=" ++ q d | none => []
    let heightAttr := match h with | some d => cs " height=" ++ q d | none => []
    let altAttr := match alt with
      | some a => cs " alt=" ++ q a ++ cs " title=" ++ q a
      | none => []
    let classAttr := if className.isEmpty then [] else cs " class=" ++ q className
    cs "<img src=" ++ q src ++ widthAttr ++ heightAttr ++ altAttr ++ classAttr ++
      cs " loading=" ++ q (cs "lazy") ++ cs ">"

/-- Rule 10, the image rule (src line 1617): opening braces, captured
leading whitespace (greedy, backtracking to shorter runs), restricted
source, optional size, link parameter and alt groups, captured trailing
whitespace, closing braces. -/
def imageMatcher (st : RSt) (s : Str) : Option (Str × Str × RSt) :=
  if [obrace, obrace].isPrefixOf s then
    let body := s.drop 2
    let run := body.takeWhile (fun c => wsChar c)
    let cands := (List.range (run.length + 1)).reverse.map fun k =>
      let lead := run.take k
      let after := body.drop k
      (imgSrcScan after.length [] after).map fun p =>
        (imageBuild lead p.1 p.2.1 p.2.2.1 p.2.2.2.1 p.2.2.2.2.1 p.2.2.2.2.2.1,
          p.2.2.2.2.2.2)
    match firstSome cands with
    | some (rep, rest) => some (rep, rest, st)
    | none => none
  else none

/-- Rule 11, the email autolink (src line 1640). -/
def emailAutoMatcher (st : RSt) (s : Str) : Option (Str × Str × RSt) :=
  match s with
  | '<' :: r =>
    let loc := r.takeWhile (fun c => emailLocalChar c)
    if loc.isEmpty then none
    else
      match r.drop loc.length with
      | '@' :: r2 =>
        let dom := r2.takeWhile (fun c => emailDomChar c)
        (match r2.drop dom.length with
          | '>' :: rest =>
            if emailDomOk dom then
              let e := loc ++ '@' :: dom
              some (cs "<a href=" ++ q (cs "mailto:" ++ e) ++ cs " class=" ++ q (cs "mail") ++
                cs " title=" ++ q (mailObfuscate e) ++ cs ">" ++ e ++ cs "</a>", rest, st)
            else none
          | _ => none)
      | _ => none
  | _ => none

/-- The stricter class of the final URL character: not whitespace and none
of the listed punctuation. -/
def urlPunct (c : Char) : Bool :=
  c = '.' || c = ',' || c = ':' || c = ';' || c = quoteCh || c = '\'' ||
  c = ')' || c = ']' || c = cbrace

def urlBodyChar (c : Char) : Bool := !(wsChar c || c = '<')

/-- Greedy URL body then one stricter final character: the longest prefix
of the body run that ends in a non-punctuation character, of length at
least two. -/
def urlTrim (r : Str) : Option (Str × Str) :=
  let run := r.takeWhile (fun c => urlBodyChar c)
  let kept := (run.reverse.dropWhile (fun c => urlPunct c)).reverse
  if 2 ≤ kept.length then some (kept, r.drop kept.length) else none

def urlShorten (u : Str) : Str :=
  let t1 := if (cs "https://").isPrefixOf u then u.drop 8
    else if (cs "http://").isPrefixOf u then u.drop 7 else u
  let t2 := if (cs "www.").isPrefixOf t1 then t1.drop 4 else t1
  if (cs "/").isSuffixOf t2 then t2.dropLast else t2

/-- The body of the http autolink after its start-or-whitespace prefix. -/
def httpBody (s : Str) : Option (Str × Str) :=
  let proto := if (cs "https://").isPrefixOf s then some 8
    else if (cs "http://").isPrefixOf s then some 7 else none
  match proto with
  | some n =>
    (urlTrim (s.drop n)).map fun r =>
      let u := s.take n ++ r.1
      (cs "<a href=" ++ q u ++ cs " class=" ++ q (cs "urlextern") ++ cs " rel=" ++
        q (cs "nofollow") ++ cs " title=" ++ q u ++ cs ">" ++ urlShorten u ++ cs "</a>", r.2)
  | none => none

/-- The body of the www autolink after its start-or-whitespace prefix. -/
def wwwBody (s : Str) : Option (Str × Str) :=
  if (cs "www.").isPrefixOf s then
    (urlTrim (s.drop 4)).map fun r =>
      let u := cs "www." ++ r.1
      (cs "<a href=" ++ q (cs "http://" ++ u) ++ cs " class=" ++ q (cs "urlextern") ++
        cs " rel=" ++ q (cs "nofollow") ++ cs " title=" ++ q (cs "http://" ++ u) ++ cs ">" ++
        urlShorten u ++ cs "</a>", r.2)
  else none

/-- A rule whose regex starts with a start-or-whitespace group that is
captured and re-emitted: the start alternative is tried once before the
scan, the whitespace alternative consumes the whitespace character. -/
def startOrWsRule (body : Str → Option (Str × Str)) (st : RSt) (s : Str) : RSt × Str :=
  let m : RSt → Str → Option (Str × Str × RSt) := fun st' s' =>
    match s' with
    | c :: t =>
      if wsChar c then (body t).map fun r => (c :: r.1, r.2, st') else none
    | [] => none
  match body s with
  | some (rep, rest) =>
    let r := runRule m st rest
    (r.1, rep ++ r.2)
  | none => runRule m st s

/-- First occurrence of either pattern (the close of the html and php
rules is a two-way alternation). -/
def findSplit2 (p1 p2 : Str) : Str → Option (Str × Str)
  | [] => none
  | c :: rest =>
    if p1.isPrefixOf (c :: rest) then some ([], (c :: rest).drop p1.length)
    else if p2.isPrefixOf (c :: rest) then some ([], (c :: rest).drop p2.length)
    else (findSplit2 p1 p2 rest).map fun p => (c :: p.1, p.2)

/-- Rule 14, inline html embedding (src line 1650). -/
def htmlMatcher (htmlok : Bool) (st : RSt) (s : Str) : Option (Str × Str × RSt) :=
  let opn := if (cs "<html>").isPrefixOf s then some 6
    else if (cs "<HTML>").isPrefixOf s then some 6 else none
  match opn with
  | some n =>
    (findSplit2 (cs "</html>") (cs "</HTML>") (s.drop n)).map fun p =>
      (if htmlok then p.1 else cs "<pre class=" ++ q (cs "code html") ++ cs ">" ++
        escapeEntities p.1 ++ cs "</pre>", p.2, st)
  | none => none

/-- Rule 15, inline php embedding (src line 1654): always escaped. -/
def phpMatcher (st : RSt) (s : Str) : Option (Str × Str × RSt) :=
  let opn := if (cs "<php>").isPrefixOf s then some 5
    else if (cs "<PHP>").isPrefixOf s then some 5 else none
  match opn with
  | some n =>
    (findSplit2 (cs "</php>") (cs "</PHP>") (s.drop n)).map fun p =>
      (cs "<pre class=" ++ q (cs "code php") ++ cs ">" ++ escapeEntities p.1 ++
        cs "</pre>", p.2, st)
  | none => none

/-- Shortest one-or-more parameter text before the rss closing braces. -/
def rssParamScan : Nat → Str → Str → Option (Str × Str)
  | 0, _, _ => none
  | f + 1, acc, s =>
    match s with
    | [] => none
    | c :: rest =>
      if c = '\n' then none
      else if [cbrace, cbrace].isPrefixOf rest then some (acc ++ [c], rest.drop 2)
      else rssParamScan f (acc ++ [c]) rest

/-- After the rss url: the optional whitespace-and-parameters group (greedy
whitespace, longest run first) and the closing braces. -/
def rssAfterUrl (s : Str) : Option (Option Str × Str) :=
  let run := s.takeWhile (fun c => wsChar c)
  (firstSome ((List.range run.length).map fun i =>
    let k := run.length - i
    (rssParamScan (s.drop k).length [] (s.drop k)).map fun p => (some p.1, p.2)))
  <|> (if [cbrace, cbrace].isPrefixOf s then some ((none : Option Str), s.drop 2) else none)

/-- Shortest-first url expansion of the rss rule regex. -/
def rssUrlScan : Nat → Str → Str → Option (Str × Option Str × Str)
  | 0, _, _ => none
  | f + 1, acc, s =>
    match s with
    | [] => none
    | c :: rest =>
      if c = '\n' then none
      else
        let acc' := acc ++ [c]
        match rssAfterUrl rest with
        | some (ps, r) => some (acc', ps, r)
        | none => rssUrlScan f acc' rest

/-- JS String.split on a whitespace-run regex. -/
def splitWsAux : Nat → Str → List Str
  | 0, s => [s]
  | _ + 1, [] => [[]]
  | f + 1, c :: rest =>
    if wsChar c then [] :: splitWsAux f (rest.dropWhile (fun d => wsChar d))
    else
      match splitWsAux f rest with
      | [] => [[c]]
      | h :: t => (c :: h) :: t

def splitWs (s : Str) : List Str := splitWsAux s.length s

def digitsToNat (s : Str) : Nat := s.foldl (fun n c => n * 10 + (c.toNat - 48)) 0

/-- The replacement of the rss rule (src lines 1659-1664): the item count
from the first all-digit parameter (default 8), each stub item carrying
the current date - the one place the output depends on the clock. -/
def rssBuild (today url : Str) (params : Option Str) : Str :=
  let paramList := match params with
    | none => []
    | some p => splitWs p
  let count := match paramList.find? (fun x => !x.isEmpty && x.all fun c => asciiDigit c) with
    | some d => digitsToNat d
    | none => 8
  let items := (List.range count).map fun i =>
    cs "<li><a href=" ++ q url ++ cs " class=" ++ q (cs "urlextern") ++ cs " rel=" ++
      q (cs "nofollow") ++ cs ">RSS item " ++ natDigits (i + 1) ++
      cs "</a> by Author (" ++ today ++ cs ")</li>"
  cs "<ul class=" ++ q (cs "rss") ++ cs ">" ++ items.foldr (· ++ ·) [] ++ cs "</ul>"

/-- Rule 16, the rss stub rule (src line 1658). -/
def rssMatcher (today : Str) (st : RSt) (s : Str) : Option (Str × Str × RSt) :=
  if ([obrace, obrace] ++ cs "rss>").isPrefixOf s then
    let body := s.drop 6
    match rssUrlScan body.length [] body with
    | some (url, params, rest) => some (rssBuild today url params, rest, st)
    | none => none
  else none

/-- Rule 17, the control macros (src line 1666): both removed. -/
def notocMatcher (st : RSt) (s : Str) : Option (Str × Str × RSt) :=
  if (cs "~~NOTOC~~").isPrefixOf s then some ([], s.drop 9, st)
  else if (cs "~~NOCACHE~~").isPrefixOf s then some ([], s.drop 11, st)
  else none

structure PluginInfo where
  pname : Str
  pdate : Str
  pauthor : Str
  pdesc : Str
  purl : Str

def pluginTable : List PluginInfo :=
  [⟨cs "Structured Data Plugin", cs "2024-01-30", cs "Andreas Gohr",
      cs "Add and query structured data in your wiki", cs "data"⟩,
    ⟨cs "DokuTeaser Plugin", cs "2016-01-16", cs "Andreas Gohr",
      cs "A plugin for internal use on dokuwiki.org only", []⟩,
    ⟨cs "Gallery Plugin", cs "2024-04-30", cs "Andreas Gohr",
      cs "Creates a gallery of images from a namespace or RSS/ATOM feed", cs "gallery"⟩,
    ⟨cs "Info Plugin", cs "2020-06-04", cs "Andreas Gohr",
      cs "Displays information about various DokuWiki internals", cs "info"⟩,
    ⟨cs "Repository plugin", cs "2024-02-09", cs "Andreas Gohr/Håkan Sandell",
      cs "Helps organizing the plugin and template repository", cs "repository"⟩,
    ⟨cs "Translation Plugin", cs "2024-04-30", cs "Andreas Gohr",
      cs "Supports the easy setup of a multi-language wiki.", cs "translation"⟩,
    ⟨cs "PHPXref Plugin", cs "2024-04-30", cs "Andreas Gohr",
      cs "Makes linking to a PHPXref generated API doc easy.", cs "xref"⟩]

def pluginItem (p : PluginInfo) : Str :=
  let url := if p.purl.isEmpty then (lowerStr p.pname).filter (fun c => !wsChar c) else p.purl
  let email := if containsStr (cs "Håkan") p.pauthor then
    cs "sandell [dot] hakan [at] gmail [dot] com"
  else cs "andi [at] splitbrain [dot] org"
  cs "<li class=" ++ q (cs "level1") ++ cs "><div class=" ++ q (cs "li") ++
    cs "><a href=" ++ q (cs "https://www.dokuwiki.org/plugin:" ++ url) ++ cs " class=" ++
    q (cs "urlextern") ++ cs " rel=" ++ q (cs "nofollow") ++ cs ">" ++ p.pname ++
    cs "</a> <em>" ++ p.pdate ++ cs "</em> by <a href=" ++ q (cs "mailto:" ++ email) ++
    cs " class=" ++ q (cs "mail") ++ cs ">" ++ p.pauthor ++ cs "<br>" ++ p.pdesc ++
    cs "</div></li>"

/-- Rule 18, the syntax-plugin info macro (src lines 1668-1680). -/
def infoMatcher (st : RSt) (s : Str) : Option (Str × Str × RSt) :=
  if (cs "~~INFO:syntaxplugins~~").isPrefixOf s then
    some (cs "<ul>" ++ (pluginTable.map pluginItem).foldr (· ++ ·) [] ++ cs "</ul>",
      s.drop 22, st)
  else none

/-- A typography arrow rule: whitespace, the literal, a whitespace
lookahead that is not consumed; the replacement carries plain spaces. -/
def arrowMatcher (mid rep : Str) (st : RSt) (s : Str) : Option (Str × Str × RSt) :=
  match s with
  | c :: rest =>
    if wsChar c && mid.isPrefixOf rest then
      match rest.drop mid.length with
      | d :: _ => if wsChar d then some (rep, rest.drop mid.length, st) else none
      | [] => none
    else none
  | [] => none

/-- A case-insensitive three-character symbol rule such as (c). -/
def ciLitMatcher (inner : Char) (rep : Str) (st : RSt) (s : Str) :
    Option (Str × Str × RSt) :=
  match s with
  | '(' :: x :: ')' :: rest =>
    if lowerChar x = inner then some (rep, rest, st) else none
  | _ => none

/-- The dimension rule: greedy digits, x, greedy digits (src line 1696). -/
def dimsMatcher (st : RSt) (s : Str) : Option (Str × Str × RSt) :=
  let d := s.takeWhile (fun c => asciiDigit c)
  if d.isEmpty then none
  else
    match s.drop d.length with
    | 'x' :: r2 =>
      let h := r2.takeWhile (fun c => asciiDigit c)
      if h.isEmpty then none
      else some (d ++ cs "&times;" ++ h, r2.drop h.length, st)
    | _ => none

def lookWsEnd : Str → Bool
  | [] => true
  | c :: _ => wsChar c

/-- An emoticon body: the first matching variant (regex alternation and
optional-dash order), with a whitespace-or-end lookahead. -/
def smileyBody (variants : List Str) (emoji : Str) (s : Str) : Option (Str × Str) :=
  firstSome (variants.map fun v =>
    if v.isPrefixOf s && lookWsEnd (s.drop v.length) then some (emoji, s.drop v.length)
    else none)

def rl (m : RSt → Str → Option (Str × Str × RSt)) : RSt → Str → RSt × Str := runRule m

def smileyRule (variants : List Str) (emoji : Str) : RSt → Str → RSt × Str :=
  startOrWsRule (smileyBody variants emoji)

/-- The ordered rule array of the constructor (src lines 1540-1717). -/
def rulesList (today ns : Str) (iw : List (Str × Str)) (htmlok typography : Bool) :
    List (RSt → Str → RSt × Str) :=
  [rl nowikiMatcher,
    rl percentMatcher,
    rl (linkMatcher ns iw),
    rl (pairMatcher (cs "**") (cs "**") (cs "<strong>") (cs "</strong>")),
    rl (pairMatcher (cs "//") (cs "//") (cs "<em>") (cs "</em>")),
    rl (pairMatcher (cs "__") (cs "__") (cs "<u>") (cs "</u>")),
    rl (pairMatcher (cs "''") (cs "''") (cs "<tt>") (cs "</tt>")),
    rl (pairMatcher (cs "<sub>") (cs "</sub>") (cs "<sub>") (cs "</sub>")),
    rl (pairMatcher (cs "<sup>") (cs "</sup>") (cs "<sup>") (cs "</sup>")),
    rl (pairMatcher (cs "<del>") (cs "</del>") (cs "<del>") (cs "</del>")),
    rl imageMatcher,
    rl emailAutoMatcher,
    startOrWsRule httpBody,
    startOrWsRule wwwBody,
    rl (htmlMatcher htmlok),
    rl phpMatcher,
    rl (rssMatcher today),
    rl notocMatcher,
    rl infoMatcher]
  ++ (if typography then
    [rl (arrowMatcher (cs "->") (cs " &rarr; ")),
      rl (arrowMatcher (cs "<-") (cs " &larr; ")),
      rl (arrowMatcher (cs "<->") (cs " &harr; ")),
      rl (arrowMatcher (cs "=>") (cs " &rArr; ")),
      rl (arrowMatcher (cs "<=") (cs " &lArr; ")),
      rl (arrowMatcher (cs "<=>") (cs " &hArr; ")),
      rl (arrowMatcher (cs ">>") (cs " &raquo; ")),
      rl (arrowMatcher (cs "<<") (cs " &laquo; ")),
      rl (arrowMatcher (cs "---") (cs " &mdash; ")),
      rl (arrowMatcher (cs "--") (cs " &ndash; ")),
      rl (ciLitMatcher 'c' (cs "&copy;")),
      rl (ciLitMatcher 't' (cs "&trade;")),
      rl (ciLitMatcher 'r' (cs "&reg;")),
      rl dimsMatcher]
  else [])
  ++ [smileyRule [cs "8-)"] (cs "😎"),
    smileyRule [cs "8-O"] (cs "😲"),
    smileyRule [cs ":-(", cs ":("] (cs "😢"),
    smileyRule [cs ":-)", cs ":)"] (cs "🙂"),
    smileyRule [cs "=-)", cs "=)"] (cs "😊"),
    smileyRule [cs ":-/", cs ":/"] (cs "😕"),
    smileyRule [cs ":-\\", cs ":\\"] (cs "😕"),
    smileyRule [cs ":-D", cs ":D"] (cs "😄"),
    smileyRule [cs ":-P", cs ":P"] (cs "😛"),
    smileyRule [cs ":-O", cs ":O"] (cs "😯"),
    smileyRule [cs ":-X", cs ":X"] (cs "😣"),
    smileyRule [cs ":-|", cs ":|"] (cs "😐"),
    smileyRule [cs ";-)"] (cs "😉"),
    smileyRule [cs "^_^"] (cs "😄"),
    smileyRule [cs "::!:", cs ":!:"] (cs "❗"),
    smileyRule [cs "::?:", cs ":?:"] (cs "❓"),
    smileyRule [cs "LOL"] (cs "😂"),
    smileyRule [cs "FIXME"] (cs "🔧"),
    smileyRule [cs "DELETEME"] (cs "🗑️")]

def fnRef (i : Nat) : Str :=
  cs "<sup><a href=" ++ q (cs "#fn__" ++ natDigits (i + 1)) ++ cs " id=" ++
    q (cs "fnt__" ++ natDigits (i + 1)) ++ cs " class=" ++ q (cs "fn_bot") ++ cs ">[" ++
    natDigits (i + 1) ++ cs "]</a></sup>"

/-- parseFootnotes (src lines 2201-2211): a double-paren citation whose
trimmed text is empty is left as it stands; otherwise the text is looked
up in the registry, registered at the next index when new, and replaced
by a back-reference marker carrying the shared one-based index. -/
def fnMatcher (st : RSt) (s : Str) : Option (Str × Str × RSt) :=
  if (cs "((").isPrefixOf s then
    match findSplit1 (cs "))") (s.drop 2) with
    | some (note, rest) =>
      if note.contains '\n' then none
      else if (jsTrim note).isEmpty then some (cs "((" ++ note ++ cs "))", rest, st)
      else
        match idxOf note st.fns with
        | some i => some (fnRef i, rest, st)
        | none => some (fnRef st.fns.length, rest, { st with fns := st.fns ++ [note] })
    | none => none
  else none

def parseFootnotes (st : RSt) (content : Str) : RSt × Str := runRule fnMatcher st content

def backquote : Char := Char.ofNat 96

/-- GetSubstitution for a JS replacement given as a string: in the
replacement text a doubled dollar is an escaped dollar, dollar-ampersand
the matched text, dollar-backquote the part of the subject before the
match, dollar-apostrophe the part after it; any other dollar stays
literal (the patterns at hand have no capture groups, so a dollar-digit
form is left as it stands). -/
def expandRep (matched before after : Str) : Str → Str
  | [] => []
  | c :: rest =>
    if c = '$' then
      match rest with
      | [] => ['$']
      | d :: r2 =>
        if d = '$' then '$' :: expandRep matched before after r2
        else if d = '&' then matched ++ expandRep matched before after r2
        else if d = backquote then before ++ expandRep matched before after r2
        else if d = Char.ofNat 39 then after ++ expandRep matched before after r2
        else '$' :: d :: expandRep matched before after r2
    else c :: expandRep matched before after rest

/-- JS String.replace with a plain-string pattern and a string
replacement: first occurrence only, dollar patterns processed. -/
def replaceFirstD (pat rep s : Str) : Str :=
  match findSplit pat s with
  | some (a, b) => a ++ expandRep pat a b rep ++ b
  | none => s

def replaceAllDAux (pat rep : Str) : Nat → Str → Str → Str
  | 0, _, s => s
  | _ + 1, _, [] => []
  | f + 1, pre, c :: rest =>
    if pat.isPrefixOf (c :: rest) then
      expandRep pat pre ((c :: rest).drop pat.length) rep ++
        replaceAllDAux pat rep f (pre ++ pat) ((c :: rest).drop pat.length)
    else c :: replaceAllDAux pat rep f (pre ++ [c]) rest

/-- JS String.replace with a global regex and a string replacement: every
occurrence scanning left to right, never rescanning the replacement, the
dollar patterns of each substitution taken against the original subject. -/
def replaceAllD (pat rep s : Str) : Str := replaceAllDAux pat rep s.length [] s

/-- The indexed token resolution loops of applyRules and parse (src lines
2191-2196 and 2174-2179): every occurrence of the token of index i is
replaced by the escaped raw content, ascending i. -/
def resolveTokensEsc (opTok : Str) : Nat → List Str → Str → Str
  | _, [], s => s
  | i, raw :: rest, s =>
    resolveTokensEsc opTok (i + 1) rest
      (replaceAllD (opTok ++ natDigits i ++ cs "]") (escapeEntities raw) s)

/-- applyRules (src lines 2184-2199): reset the nowiki and percent tables,
run every rule in order, resolve this fragment's nowiki and percent tokens
to escaped content, then extract footnotes. -/
def applyRules (today ns : Str) (iw : List (Str × Str)) (htmlok typography : Bool)
    (st : RSt) (content : Str) : RSt × Str :=
  let st0 : RSt := { st with nowikis := [], percents := [] }
  let r := (rulesList today ns iw htmlok typography).foldl (fun a rule => rule a.1 a.2) (st0, content)
  let r2 := resolveTokensEsc (cs "[NOWIKI_") 0 r.1.nowikis r.2
  let r3 := resolveTokensEsc (cs "[PERCENT_") 0 r.1.percents r2
  parseFootnotes r.1 r3

/-- The constructor options (src lines 1526-1530) plus the current date the
rss rule reads from the clock, made an explicit parameter. -/
structure Cfg where
  today : Str
  currentNamespace : Str
  interwikiMap : List (Str × Str)
  htmlok : Bool
  typography : Bool

def dfltCfg (today : Str) : Cfg :=
  { today := today, currentNamespace := [],
    interwikiMap := [(cs "wp", cs "https://en.wikipedia.org/wiki/"),
      (cs "doku", cs "https://www.dokuwiki.org/")],
    htmlok := true, typography := true }

def apCfg (cfg : Cfg) (st : RSt) (c : Str) : RSt × Str :=
  applyRules cfg.today cfg.currentNamespace cfg.interwikiMap cfg.htmlok cfg.typography st c

/-- The whole mutable state of one parse call: the instance fields and the
local block buffers of parse (src lines 1769-1791). -/
structure PSt where
  rst : RSt
  result : List Str
  tableBuffer : List Str
  tableRowspans : List Int
  quoteLevel : Nat
  paragraphBuffer : List Str
  inCodeBlock : Bool
  codeBlockBuffer : List Str
  inPre : Bool
  preBuffer : List Str
  codeLang : Str
  inTable : Bool
  inCodeSection : Bool
  codeBlockIndent : Int
  listStack : List (Str × Nat)
  currentIndent : Int
  currentType : Option Str
  currentSectionLevel : Nat
deriving DecidableEq, Repr

def initPSt : PSt :=
  { rst := emptyRSt, result := [], tableBuffer := [], tableRowspans := [],
    quoteLevel := 0, paragraphBuffer := [], inCodeBlock := false,
    codeBlockBuffer := [], inPre := false, preBuffer := [], codeLang := [],
    inTable := false, inCodeSection := false, codeBlockIndent := -1,
    listStack := [], currentIndent := -1, currentType := none,
    currentSectionLevel := 0 }

/-- flushBlocks (src lines 2222-2253): close open list tags, emit the
buffered table, close open quote wrappers, emit the buffered paragraph
unless its joined content trims to nothing. The code-buffer branch reads
the identifier codeLang, which is a local of parse and not in scope in
flushBlocks, so reaching that branch with a non-empty code buffer raises a
ReferenceError; it is modelled as the error result. The quote level is
passed by value in the source, so the caller's quote level is untouched. -/
def flushBlocks (st : PSt) : Except Str PSt :=
  let st1 :=
    if st.listStack.isEmpty then st
    else
      { st with
        result := st.result ++ (st.listStack.map fun e => cs "</" ++ e.1 ++ cs ">").reverse,
        listStack := [], currentIndent := -1, currentType := none }
  let st2 :=
    if st1.tableBuffer.isEmpty then st1
    else
      { st1 with
        result := st1.result ++ [cs "<table class=" ++ q (cs "inline") ++ cs ">" ++
          st1.tableBuffer.foldr (· ++ ·) [] ++ cs "</table>"],
        tableBuffer := [], tableRowspans := [] }
  let st3 := { st2 with
    result := st2.result ++ List.replicate st2.quoteLevel (cs "</div></blockquote>") }
  let st4 :=
    if st3.paragraphBuffer.isEmpty then st3
    else
      let paraContent := List.intercalate (cs " ") st3.paragraphBuffer
      { st3 with
        result := st3.result ++
          (if (jsTrim paraContent).isEmpty then [] else [cs "<p>" ++ paraContent ++ cs "</p>"]),
        paragraphBuffer := [] }
  if st4.codeBlockBuffer.isEmpty then .ok st4
  else .error (cs "ReferenceError: codeLang is not defined")

/-- The code and file opening regex (src line 1814): the tag word, an
optional whitespace-and-language group, the closing angle; returns the
language and the length of the whole match. -/
def codeOpen (tag : Str) (t : Str) : Option (Option Str × Nat) :=
  if tag.isPrefixOf t then
    let r := t.drop tag.length
    let w := r.takeWhile (fun c => wsChar c)
    (if w.isEmpty then none
      else
        let r1 := r.drop w.length
        let lang := r1.takeWhile (fun c => !(wsChar c || c = '>'))
        if lang.isEmpty then none
        else
          match r1.drop lang.length with
          | '>' :: _ => some (some lang, tag.length + w.length + lang.length + 1)
          | _ => none)
    <|> (match r with
      | '>' :: _ => some ((none : Option Str), tag.length + 1)
      | _ => none)
  else none

/-- Strip a trailing hard-break marker and the whitespace after it
(the anchored non-global break regex). -/
def stripBreakEnd (s : Str) : Str :=
  let t := (s.reverse.dropWhile (fun c => wsChar c)).reverse
  if (cs "\\\\").isSuffixOf t then t.take (t.length - 2) else s

def brReplaceAux : Nat → Str → Str
  | 0, s => s
  | _ + 1, [] => []
  | f + 1, c :: rest =>
    if (cs "\\\\").isPrefixOf (c :: rest) &&
        (match (c :: rest).drop 2 with | d :: _ => wsChar d | [] => false) then
      cs "<br>" ++ brReplaceAux f (((c :: rest).drop 2).dropWhile (fun d => wsChar d))
    else c :: brReplaceAux f rest

/-- Replace every inner hard-break marker followed by whitespace with a
br element (the global break regex). -/
def brReplace (s : Str) : Str := brReplaceAux s.length s

/-- The header line regex match (src line 2102), two-to-six equals on each
end with anything between: equivalent to starting and ending with two
equals at length at least four (the inner repetition beyond two is
absorbed by the dot-star). -/
def headerMatch (t : Str) : Bool :=
  (cs "==").isPrefixOf t && (cs "==").isSuffixOf t &&
    decide (4 ≤ t.length) && !t.contains '\n'

def dropLeadEqRun (t : Str) : Str :=
  let r := (t.takeWhile (fun c => c = '=')).length
  if 2 ≤ r then t.drop (min r 6) else t

def dropTrailEqRun (t : Str) : Str :=
  let r := (t.reverse.takeWhile (fun c => c = '=')).length
  if 2 ≤ r then t.take (t.length - min r 6) else t

/-- The header branch arithmetic and content strip (src lines 2104-2107):
half the count of every equals sign in the line, floored; level is
7 minus that, clamped into 1..6; the content loses one leading and one
trailing equals run of at most six. -/
def headerParse (t : Str) : Option (Nat × Str) :=
  if headerMatch t then
    let cnt := t.count '='
    let lvl : Int := max 1 (min 6 (7 - ((cnt / 2 : Nat) : Int)))
    some (lvl.toNat, jsTrim (dropTrailEqRun (dropLeadEqRun t)))
  else none

def headerLevelOf (t : Str) : Option Nat := (headerParse t).map Prod.fst

def collapseUndersAux : Nat → Str → Str
  | 0, s => s
  | _ + 1, [] => []
  | f + 1, c :: rest =>
    if c = '_' then '_' :: collapseUndersAux f (rest.dropWhile (fun d => d = '_'))
    else c :: collapseUndersAux f rest

/-- The anchor id of a heading (src line 2108): lowercase, non-alphanumeric
to underscore, collapse underscore runs, strip one leading and one
trailing underscore. -/
def headerId (content : Str) : Str :=
  let s1 := (lowerStr content).map fun c =>
    if ('a' ≤ c && c ≤ 'z') || asciiDigit c then c else '_'
  let s2 := collapseUndersAux s1.length s1
  let s3 := match s2 with | '_' :: r => r | s => s
  match s3.reverse with | '_' :: r => r.reverse | _ => s3

def codeSectionNames : List Str :=
  [cs "Links", cs "Tables", cs "Quoting", cs "Text Conversions", cs "No Formatting",
    cs "Embedding HTML and PHP", cs "RSS/ATOM Feed Aggregation", cs "Control Macros",
    cs "Syntax Plugins"]

def isCodeSectionName (content : Str) : Bool :=
  codeSectionNames.any fun n => lowerStr content = lowerStr n

/-- The paragraph-flush boundary regex of src line 1876: the whole trimmed
line is a lone quote mark, a header line, a lone table mark or a rule. -/
def paraBoundary (t : Str) : Bool :=
  t = cs ">" || headerMatch t || t = cs "^" || t = cs "|" ||
    (decide (4 ≤ t.length) && t.all fun c => c = '-')

/-- The indented-pre marker regex of src line 1942: two or more spaces then
a list or table marker then whitespace. -/
def preMarkerTest (line : Str) : Bool :=
  let sp := (line.takeWhile (fun c => c = ' ')).length
  2 ≤ sp &&
    (match line.drop sp with
      | m :: d :: _ => (m = '*' || m = '|' || m = '-') && wsChar d
      | _ => false)

def hrTest (t : Str) : Bool := decide (4 ≤ t.length) && t.all fun c => c = '-'

/-- The list dedent loop (src lines 1889-1894): close item and list while
the current indent exceeds the new depth. -/
def listCloseA : Nat → Int → PSt → PSt
  | 0, _, st => st
  | f + 1, depth, st =>
    if depth < st.currentIndent && !st.listStack.isEmpty then
      match st.listStack.getLast? with
      | some e =>
        let stk := st.listStack.dropLast
        listCloseA f depth
          { st with
            result := st.result ++ [cs "</li>", cs "</" ++ e.1 ++ cs ">"],
            listStack := stk,
            currentIndent := match stk.getLast? with | some e2 => (e2.2 : Int) | none => -1,
            currentType := match stk.getLast? with | some e2 => some e2.1 | none => none }
      | none => st
    else st

/-- The lookahead close loop (src lines 1922-1926): close lists (without a
further item close) down below the next depth. -/
def listCloseB : Nat → Int → PSt → PSt
  | 0, _, st => st
  | f + 1, nextDepth, st =>
    if !st.listStack.isEmpty && nextDepth ≤ st.currentIndent then
      match st.listStack.getLast? with
      | some e =>
        let stk := st.listStack.dropLast
        listCloseB f nextDepth
          { st with
            result := st.result ++ [cs "</" ++ e.1 ++ cs ">"],
            listStack := stk,
            currentIndent := match stk.getLast? with | some e2 => (e2.2 : Int) | none => -1,
            currentType := match stk.getLast? with | some e2 => some e2.1 | none => none }
      | none => st
    else st

/-- The list branch (src lines 1880-1938). -/
def listStep (cfg : Cfg) (next? : Option Str) (line : Str) (indent : Nat) (st0 : PSt) : PSt :=
  let content0 := jsTrim (line.drop (indent + 2))
  let content1 := brReplace (stripBreakEnd content0)
  let ar := apCfg cfg st0.rst content1
  let content := ar.2
  let listType := if line.getD indent ' ' = '*' then cs "ul" else cs "ol"
  let depth : Nat := indent / 2
  let st1 := listCloseA (st0.listStack.length + 1) (depth : Int) { st0 with rst := ar.1 }
  let st2 :=
    if st1.currentIndent = -1 || st1.currentIndent < (depth : Int) then
      { st1 with
        result := st1.result ++ [cs "<" ++ listType ++ cs ">"],
        listStack := st1.listStack ++ [(listType, depth)],
        currentType := some listType, currentIndent := (depth : Int) }
    else if (depth : Int) = st1.currentIndent && st1.currentType ≠ some listType then
      match st1.listStack.getLast? with
      | some e =>
        { st1 with
          result := st1.result ++
            [cs "</li>", cs "</" ++ e.1 ++ cs ">", cs "<" ++ listType ++ cs ">"],
          listStack := st1.listStack.dropLast ++ [(listType, depth)],
          currentType := some listType }
      | none => st1
    else st1
  let st3 := { st2 with
    result := st2.result ++ [cs "<li class=" ++ q (cs "level" ++ natDigits depth) ++
      cs "><div class=" ++ q (cs "li") ++ cs ">" ++ content ++ cs "</div>"] }
  match next? with
  | some nextLine =>
    let nextTrimmed := jsTrim nextLine
    let nextIndent := (nextLine.takeWhile (fun c => wsChar c)).length
    let nextDepth : Nat := nextIndent / 2
    let isMarker := nextLine.getD nextIndent ' ' = '*' || nextLine.getD nextIndent ' ' = '-'
    if nextTrimmed.isEmpty || nextIndent < 2 || !isMarker || nextDepth < depth then
      let st4 := { st3 with result := st3.result ++ [cs "</li>"] }
      if nextTrimmed.isEmpty || nextIndent < 2 || nextDepth < depth then
        listCloseB (st4.listStack.length + 1) (nextDepth : Int) st4
      else st4
    else st3
  | none =>
    let st4 := { st3 with result := st3.result ++ [cs "</li>"] }
    { st4 with
      result := st4.result ++ (st4.listStack.map fun e => cs "</" ++ e.1 ++ cs ">").reverse,
      listStack := [], currentIndent := -1, currentType := none }

/-- The alignment inference of the table branch (src lines 2026-2035),
computed on the already-trimmed cell (so it never fires, faithfully to the
source). -/
def cellAlign (cell : Str) : Str :=
  let lw := (cell.takeWhile (fun c => wsChar c)).length
  let tw := (cell.reverse.takeWhile (fun c => wsChar c)).length
  if 2 ≤ lw && 2 ≤ tw && 4 ≤ cell.length then cs "center"
  else if 2 ≤ lw then cs "right"
  else if 2 ≤ tw then cs "left"
  else []

/-- The cell loop of the table branch (src lines 2047-2083). Besides the
row html it returns the list of colspan values of the emitted cells (the
loop emits nothing for rowspan-continuation and triple-colon cells). -/
def rowLoop (ap : RSt → Str → RSt × Str) (tag : Str) (cells aligns taligns : List Str) :
    Nat → Nat → List Int → RSt → (Str × List Nat × List Int × RSt)
  | 0, _, rs, rst => ([], [], rs, rst)
  | f + 1, j, rs, rst =>
    if j < cells.length then
      if 0 < rs.getD j 0 then
        rowLoop ap tag cells aligns taligns f (j + 1) (rs.set j (rs.getD j 0 - 1)) rst
      else
        let cell := cells.getD j []
        let emptyRun := ((cells.drop (j + 1)).takeWhile (fun c => c.isEmpty)).length
        let k := j + 1 + emptyRun
        let colspan := 1 + emptyRun
        if cell = cs ":::" then
          rowLoop ap tag cells aligns taligns f (j + 1) (rs.set j (rs.getD j 0 - 1)) rst
        else
          let isRun := !cell.isEmpty && cell.all (fun c => c = ':')
          let rowspanAttr := if isRun then cs " rowspan=" ++ q (natDigits cell.length) else []
          let rs1 := if isRun then rs.set j ((cell.length : Int) - 1) else rs
          let cell1 := if isRun then [] else cell
          let ar := ap rst cell1
          let alignClass :=
            if !(aligns.getD j []).isEmpty then aligns.getD j []
            else if j < taligns.length then taligns.getD j []
            else cs "leftalign"
          let classAttr := cs " class=" ++ q (cs "col" ++ natDigits j ++ cs " " ++ alignClass)
          let colspanAttr := if 1 < colspan then cs " colspan=" ++ q (natDigits colspan) else []
          let r := rowLoop ap tag cells aligns taligns f k rs1 ar.1
          (cs "<" ++ tag ++ rowspanAttr ++ colspanAttr ++ classAttr ++ cs ">" ++ ar.2 ++
              cs "</" ++ tag ++ cs ">" ++ r.1,
            colspan :: r.2.1, r.2.2.1, r.2.2.2)
    else ([], [], rs, rst)

/-- One table row (src lines 2015-2085): separator selection, cell split
and trim, per-cell alignment and break handling, rowspan-state reset on a
width change, then the cell loop. -/
def buildRow (ap : RSt → Str → RSt × Str) (trimmed : Str) (rs : List Int) (rst : RSt) :
    Str × List Nat × List Int × RSt :=
  let hasPipe := trimmed.contains '|'
  let isHeaderRow := (cs "^").isPrefixOf trimmed && !hasPipe
  let sep := if isHeaderRow then '^' else '|'
  let rawLine := jsTrim (trimmed.drop 1)
  let cells0 := (splitOnChar sep rawLine).map jsTrim
  let aligns := cells0.map cellAlign
  let cells := cells0.map fun c => brReplace (stripBreakEnd c)
  let taligns := if isHeaderRow then aligns else []
  let rs0 := if rs.isEmpty || rs.length ≠ cells.length then List.replicate cells.length (0 : Int) else rs
  let tag := if isHeaderRow then cs "th" else cs "td"
  let r := rowLoop ap tag cells aligns taligns (cells.length + 1) 0 rs0 rst
  (cs "<tr class=" ++ q (cs "row0") ++ cs ">" ++ r.1 ++ cs "</tr>", r.2.1, r.2.2.1, r.2.2.2)

/-- The colspan values of the cells a row emits. -/
def rowColspans (ap : RSt → Str → RSt × Str) (trimmed : Str) (rs : List Int) (rst : RSt) :
    List Nat :=
  (buildRow ap trimmed rs rst).2.1

/-- The cell list a row line is split into (the cells computed at the top
of buildRow, src lines 2030-2040). -/
def rowCells (trimmed : Str) : List Str :=
  let hasPipe := trimmed.contains '|'
  let isHeaderRow := (cs "^").isPrefixOf trimmed && !hasPipe
  let sep := if isHeaderRow then '^' else '|'
  let rawLine := jsTrim (trimmed.drop 1)
  ((splitOnChar sep rawLine).map jsTrim).map fun c => brReplace (stripBreakEnd c)

/-- The code and file opening branches (src lines 1814-1855), shared shape. -/
def codeOpenStep (tag kindWord closeTag : Str) (line : Str) (lm : Option Str × Nat)
    (st : PSt) : Except Str PSt := do
  let st1 ← flushBlocks st
  let lang := match lm.1 with
    | some l => kindWord ++ cs " " ++ l
    | none => kindWord
  let startIdx := match findSplit tag line with
    | some (pre, _) => pre.length
    | none => 0
  let contentAfter := line.drop (startIdx + lm.2)
  if containsStr closeTag line then
    let bc := match lastSplit closeTag contentAfter with
      | some (a, _) => a
      | none => []
    let classAttr := if lang.isEmpty then [] else cs " class=" ++ q lang
    .ok { st1 with
      inCodeBlock := false, inCodeSection := false, codeBlockBuffer := [],
      codeLang := [],
      result := st1.result ++ [cs "<pre" ++ classAttr ++ cs ">" ++ escapeEntities bc ++ cs "</pre>"] }
  else
    .ok { st1 with
      inCodeBlock := true, inCodeSection := true,
      codeBlockBuffer := [contentAfter], codeLang := lang }

def preEmit (st : PSt) : PSt :=
  let preContent := List.intercalate (cs "\n") (st.preBuffer.map fun l =>
    let r := (l.takeWhile fun c => c = ' ').length
    if 2 ≤ r then l.drop r else l)
  { st with
    result := st.result ++ [cs "<pre class=" ++ q (cs "code") ++ cs ">" ++
      escapeEntities preContent ++ cs "</pre>"],
    inPre := false, preBuffer := [], inCodeSection := false, codeBlockIndent := -1 }

/-- The quote branch (src lines 1976-2003). -/
def quoteStep (cfg : Cfg) (isLast : Bool) (line : Str) (run : Str) (st0 : PSt) : PSt :=
  let newLevel := run.length
  let content := (line.drop newLevel).dropWhile fun c => wsChar c
  let f1 := brReplace (stripBreakEnd (jsTrim content))
  let ar := apCfg cfg st0.rst f1
  let closeOld := if newLevel < st0.quoteLevel then
    List.replicate (st0.quoteLevel - newLevel) (cs "</div></blockquote>") else []
  let opens := if st0.quoteLevel < newLevel then
    List.replicate (newLevel - st0.quoteLevel)
      (cs "<blockquote><div class=" ++ q (cs "no") ++ cs ">") else []
  let st1 := { st0 with
    rst := ar.1,
    result := st0.result ++ closeOld ++ opens ++ [ar.2, cs "</div></blockquote>"],
    quoteLevel := newLevel }
  if isLast then
    { st1 with
      result := st1.result ++ List.replicate st1.quoteLevel (cs "</div></blockquote>"),
      quoteLevel := 0 }
  else st1

/-- The table branch (src lines 2011-2094). -/
def tableStep (cfg : Cfg) (isLast : Bool) (trimmed : Str) (st0 : PSt) : Except Str PSt := do
  let st1 ←
    if !st0.paragraphBuffer.isEmpty || 0 < st0.quoteLevel || !st0.listStack.isEmpty then
      flushBlocks st0
    else .ok st0
  let r := buildRow (apCfg cfg) trimmed st1.tableRowspans st1.rst
  let st2 := { st1 with
    tableBuffer := st1.tableBuffer ++ [r.1],
    tableRowspans := r.2.2.1, rst := r.2.2.2, inTable := true }
  if isLast then flushBlocks st2 else .ok st2

/-- The header branch (src lines 2102-2113). -/
def headerStep (cfg : Cfg) (lvl : Nat) (content0 : Str) (st0 : PSt) :
    Except Str PSt := do
  let st1 ← flushBlocks st0
  let ar := apCfg cfg st1.rst content0
  let content := ar.2
  let lvlD := natDigits lvl
  .ok { st1 with
    rst := ar.1,
    result := st1.result ++ [cs "<h" ++ lvlD ++ cs " class=" ++ q (cs "sectionedit" ++ lvlD) ++
      cs " id=" ++ q (headerId content) ++ cs ">" ++ content ++ cs "</h" ++ lvlD ++ cs ">"],
    currentSectionLevel := lvl,
    inCodeSection := isCodeSectionName content }

/-- One iteration of the main line loop of parse (src lines 1793-2150).
isLast mirrors the last-index checks, next carries the lookahead line of
the list branch. -/
def lineStep (cfg : Cfg) (isLast : Bool) (next? : Option Str) (line : Str) (st : PSt) :
    Except Str PSt :=
  let trimmed := jsTrim line
  if trimmed.isEmpty then
    if st.inTable then do
      let st1 ← flushBlocks st
      .ok { st1 with inTable := false }
    else if st.inCodeBlock then .ok { st with codeBlockBuffer := st.codeBlockBuffer ++ [[]] }
    else if st.inPre then .ok { st with preBuffer := st.preBuffer ++ [line] }
    else if 0 < st.quoteLevel || !st.paragraphBuffer.isEmpty || !st.listStack.isEmpty then do
      let st1 ← flushBlocks st
      .ok { st1 with quoteLevel := 0 }
    else .ok st
  else
    match codeOpen (cs "<code") trimmed with
    | some lm => codeOpenStep (cs "<code") (cs "code") (cs "</code>") line lm st
    | none =>
    match codeOpen (cs "<file") trimmed with
    | some lm => codeOpenStep (cs "<file") (cs "file") (cs "</file>") line lm st
    | none =>
    if st.inCodeBlock &&
        ((cs "</code>").isSuffixOf trimmed || (cs "</file>").isSuffixOf trimmed) then
      let endTag := if (cs "</code>").isSuffixOf trimmed then cs "</code>" else cs "</file>"
      let bc := match lastSplit endTag line with
        | some (a, _) => a
        | none => []
      let classAttr := if st.codeLang.isEmpty then [] else cs " class=" ++ q st.codeLang
      .ok { st with
        inCodeBlock := false, inCodeSection := false, codeLang := [],
        codeBlockBuffer := [],
        result := st.result ++ [cs "<pre" ++ classAttr ++ cs ">" ++
          escapeEntities (List.intercalate (cs "\n") (st.codeBlockBuffer ++ [bc])) ++ cs "</pre>"] }
    else if st.inCodeBlock then
      .ok { st with codeBlockBuffer := st.codeBlockBuffer ++ [line] }
    else
      let indent := (line.takeWhile fun c => wsChar c).length
      do
      let st ←
        if !st.paragraphBuffer.isEmpty && (2 ≤ indent || paraBoundary trimmed) then
          flushBlocks st
        else .ok st
      if 2 ≤ indent && !st.inCodeBlock && !st.inTable &&
          (line.getD indent ' ' = '*' || line.getD indent ' ' = '-') &&
          (line.getD (indent + 1) ' ' = ' ' || (jsTrim (line.drop (indent + 1))).isEmpty) then
        .ok (listStep cfg next? line indent st)
      else if !st.inCodeBlock && !st.inTable && 2 ≤ indent && !preMarkerTest line then do
        let st1 ← flushBlocks st
        .ok { st1 with
          inPre := true, inCodeSection := true,
          preBuffer := [line], codeBlockIndent := (indent : Int) }
      else if st.inPre && st.codeBlockIndent ≤ (indent : Int) && !trimmed.isEmpty &&
          !preMarkerTest line then
        .ok { st with preBuffer := st.preBuffer ++ [line] }
      else
        let st := if st.inPre then preEmit st else st
        if isLast && st.inPre then
          .ok (preEmit st)
        else
        let run := line.takeWhile fun c => c = '>'
        if !run.isEmpty then
          .ok (quoteStep cfg isLast line run st)
        else
        let st :=
          if 0 < st.quoteLevel then
            { st with
              result := st.result ++
                List.replicate st.quoteLevel (cs "</div></blockquote>"),
              quoteLevel := 0 }
          else st
        if !st.inCodeSection &&
            ((cs "^").isPrefixOf trimmed || (cs "|").isPrefixOf trimmed) then
          tableStep cfg isLast trimmed st
        else do
        let st ←
          if st.inTable &&
              !((cs "^").isPrefixOf trimmed || (cs "|").isPrefixOf trimmed) then do
            let st1 ← flushBlocks st
            .ok { st1 with inTable := false }
          else .ok st
        match headerParse trimmed with
        | some lc => headerStep cfg lc.1 lc.2 st
        | none =>
        if hrTest trimmed then do
          let st1 ← flushBlocks st
          .ok { st1 with result := st1.result ++ [cs "<hr>"], inCodeSection := false }
        else
        if [obrace, obrace].isPrefixOf trimmed && [cbrace, cbrace].isSuffixOf trimmed &&
            4 ≤ trimmed.length then do
          let ar := apCfg cfg st.rst trimmed
          let st1 := { st with
            rst := ar.1,
            result := st.result ++ [cs "<p>" ++ ar.2 ++ cs "</p>"] }
          if isLast then flushBlocks st1 else .ok st1
        else do
        let st ←
          if st.inTable then do
            let st1 ← flushBlocks st
            .ok { st1 with inTable := false }
          else .ok st
        if st.inCodeSection &&
            ((cs "^").isPrefixOf trimmed || (cs "|").isPrefixOf trimmed) then do
          let c1 := brReplace (stripBreakEnd trimmed)
          let ar := apCfg cfg st.rst c1
          let st1 := { st with
            rst := ar.1,
            result := st.result ++ [cs "<pre class=" ++ q (cs "code") ++ cs ">" ++ ar.2 ++ cs "</pre>"] }
          if isLast then flushBlocks st1 else .ok st1
        else do
          let c1 := brReplace (stripBreakEnd trimmed)
          let ar := apCfg cfg st.rst c1
          let st1 := { st with
            rst := ar.1,
            paragraphBuffer := st.paragraphBuffer ++ [ar.2] }
          if isLast then flushBlocks st1 else .ok st1

/-- One footnote definition block (src line 2165). -/
def fnDefLine (i : Nat) (note : Str) : Str :=
  cs "<div class=" ++ q (cs "fn") ++ cs "><sup><a href=" ++
    q (cs "#fnt__" ++ natDigits (i + 1)) ++ cs " id=" ++
    q (cs "fn__" ++ natDigits (i + 1)) ++ cs " class=" ++ q (cs "fn_bot") ++ cs ">" ++
    natDigits (i + 1) ++ cs "</a></sup> <div class=" ++ q (cs "content") ++ cs ">" ++
    escapeEntities note ++ cs "</div></div>"

/-- The footnote definitions in registry order (src lines 2162-2166);
an entry whose trimmed text is empty is skipped. -/
def fnDefsAux : Nat → List Str → List Str
  | _, [] => []
  | i, n :: rest =>
    (if (jsTrim n).isEmpty then [] else [fnDefLine i n]) ++ fnDefsAux (i + 1) rest

/-- The final link resolution pass (src lines 2171-2173): for each stored
anchor, replace the first occurrence of its token, the anchor being a
string replacement whose dollar patterns JS processes. -/
def resolveLinks : Nat → List Str → Str → Str
  | _, [], s => s
  | i, l :: rest, s =>
    resolveLinks (i + 1) rest (replaceFirstD (cs "[LINK_" ++ natDigits i ++ cs "]") l s)

/-- The canonical shape the final pass expects the joined result to have:
token-free pieces interleaved with the stored anchors' tokens, indices
ascending from `i`. States the amended resolution property. -/
def linkTokForm : Nat → List Str → Str
  | _, [] => []
  | _, [a] => a
  | i, a :: rest => a ++ ((cs "[LINK_" ++ natDigits i ++ cs "]") ++ linkTokForm (i + 1) rest)

/-- The same interleaving with each token already replaced by its anchor. -/
def splice : List Str → List Str → Str
  | [a], [] => a
  | a :: rest, l :: ls => a ++ (l ++ splice rest ls)
  | _, _ => []

def parseLines (cfg : Cfg) : List Str → PSt → Except Str PSt
  | [], st => .ok st
  | l :: rest, st => do
    let st' ← lineStep cfg rest.isEmpty rest.head? l st
    parseLines cfg rest st'

/-- parse (src lines 1768-2182): split into lines, run the line loop, the
final flush, the trailing pre flush, the footnote section, and the three
placeholder resolution passes. -/
def parseE (cfg : Cfg) (doku : Str) : Except Str Str := do
  let lines := splitOnChar '\n' doku
  let st1 ← parseLines cfg lines initPSt
  let st2 ← flushBlocks st1
  let st3 :=
    if st2.inPre then
      let preContent := List.intercalate (cs "\n") (st2.preBuffer.map fun l =>
        let r := (l.takeWhile fun c => c = ' ').length
        if 2 ≤ r then l.drop r else l)
      { st2 with result := st2.result ++ [cs "<pre class=" ++ q (cs "code") ++ cs ">" ++
          escapeEntities preContent ++ cs "</pre>"] }
    else st2
  let st4 :=
    if st3.rst.fns.isEmpty then st3
    else
      { st3 with result := st3.result ++
          [cs "<div class=" ++ q (cs "footnotes") ++ cs ">"] ++
          fnDefsAux 0 st3.rst.fns ++ [cs "</div>"] }
  let f0 := List.intercalate (cs "\n") st4.result
  let f1 := resolveLinks 0 st4.rst.links f0
  let f2 := resolveTokensEsc (cs "[NOWIKI_") 0 st4.rst.nowikis f1
  let f3 := resolveTokensEsc (cs "[PERCENT_") 0 st4.rst.percents f2
  .ok f3

/-- parse under the default configuration, with the current date explicit. -/
def parseToday (today : Str) (doku : Str) : Except Str Str := parseE (dfltCfg today) doku

/-! Helper lemmas. -/

lemma isSuffixOf_append_self (a b : Str) : b.isSuffixOf (a ++ b) = true := by
  rw [List.isSuffixOf_iff_suffix]; exact List.suffix_append a b

lemma replicate_prefix_of_le {c : Char} {j k : Nat} (h : j ≤ k) :
    List.replicate j c <+: List.replicate k c :=
  ⟨List.replicate (k - j) c, by rw [← List.replicate_add]; congr 1; omega⟩

lemma replicate_suffix_of_le {c : Char} {j k : Nat} (h : j ≤ k) :
    List.replicate j c <:+ List.replicate k c :=
  ⟨List.replicate (k - j) c, by rw [← List.replicate_add]; congr 1; omega⟩

lemma mem_wrap_elim {c : Char} {k : Nat} {m : Str} (d : Char)
    (hc : c ∈ List.replicate k d ++ m ++ List.replicate k d) :
    c = d ∨ c ∈ m := by
  rcases List.mem_append.mp hc with h1 | h1
  · rcases List.mem_append.mp h1 with h2 | h2
    · exact Or.inl (List.eq_of_mem_replicate h2)
    · exact Or.inr h2
  · exact Or.inl (List.eq_of_mem_replicate h1)

lemma contains_eq_false_of_not_mem {c : Char} {l : Str} (h : c ∉ l) :
    l.contains c = false := by
  cases hc : l.contains c
  · rfl
  · exact absurd (List.elem_iff.mp hc) h

/-- The header regex accepts a balanced wrap of k equals signs (2 ≤ k)
around newline-free content. -/
lemma headerMatch_wrap {k : Nat} {m : Str} (h2 : 2 ≤ k) (hnl : '\n' ∉ m) :
    headerMatch (List.replicate k '=' ++ m ++ List.replicate k '=') = true := by
  have heq : cs "==" = List.replicate 2 '=' := rfl
  have hpre : (cs "==").isPrefixOf (List.replicate k '=' ++ m ++ List.replicate k '=') = true := by
    rw [List.isPrefixOf_iff_prefix, heq, List.append_assoc]
    exact (replicate_prefix_of_le h2).trans (List.prefix_append _ _)
  have hsuf : (cs "==").isSuffixOf (List.replicate k '=' ++ m ++ List.replicate k '=') = true := by
    rw [List.isSuffixOf_iff_suffix, heq]
    exact (replicate_suffix_of_le h2).trans (List.suffix_append _ _)
  have hlen : 4 ≤ (List.replicate k '=' ++ m ++ List.replicate k '=').length := by
    simp only [List.length_append, List.length_replicate]; omega
  have hnomem : '\n' ∉ List.replicate k '=' ++ m ++ List.replicate k '=' := by
    intro hx
    rcases mem_wrap_elim '=' hx with h | h
    · exact absurd h (by decide)
    · exact hnl h
  simp only [headerMatch, hpre, hsuf, contains_eq_false_of_not_mem hnomem,
    Bool.and_eq_true, decide_eq_true_eq, Bool.not_false, Bool.true_and, Bool.and_true]
  exact hlen

lemma count_wrap {k : Nat} {m : Str} (hme : '=' ∉ m) :
    (List.replicate k '=' ++ m ++ List.replicate k '=').count '=' = 2 * k := by
  rw [List.append_assoc, List.count_append, List.count_append,
    List.count_replicate, List.count_eq_zero.mpr hme]
  simp; omega

/-! Generic scanner lemmas: the split functions really split, and runRule
is characterised step by step once the matcher shrinks its input. -/

lemma findSplit_eq {pat a b : Str} : ∀ {s : Str},
    findSplit pat s = some (a, b) → s = a ++ pat ++ b := by
  intro s
  induction s generalizing a with
  | nil =>
    intro h
    by_cases hp : pat = []
    · subst hp
      simp [findSplit] at h
      simp [h.1, h.2]
    · simp [findSplit, hp] at h
  | cons c t ih =>
    intro h
    rw [findSplit] at h
    split at h
    · next hpre =>
      rw [List.isPrefixOf_iff_prefix] at hpre
      obtain ⟨r, hr⟩ := hpre
      injection h with h'
      injection h' with h1 h2
      subst h1
      rw [← hr, List.drop_left] at h2
      rw [List.nil_append, ← hr, h2]
    · next hpre =>
      simp only [Option.map_eq_some'] at h
      obtain ⟨⟨a', b'⟩, hfs, hab⟩ := h
      have h1 : a = c :: a' := by
        have := congrArg Prod.fst hab
        simpa using this.symm
      have h2 : b = b' := by
        have := congrArg Prod.snd hab
        simpa using this.symm
      subst h1
      subst h2
      simp [ih hfs]

lemma findSplit_length {pat a b s : Str} (hp : pat ≠ [])
    (h : findSplit pat s = some (a, b)) : b.length < s.length := by
  have := findSplit_eq h
  subst this
  have : 1 ≤ pat.length := by
    cases pat
    · exact absurd rfl hp
    · simp
  simp [List.length_append]
  omega

/-- When the first character of `pat` does not occur in `t`, the first
occurrence of `pat` in `t ++ pat ++ r` is the explicit one. -/
lemma findSplit_marker {h : Char} {pat : Str} (hp : pat.head? = some h) :
    ∀ {t r : Str}, h ∉ t → findSplit pat (t ++ pat ++ r) = some (t, r) := by
  intro t
  induction t with
  | nil =>
    intro r _
    have hpe : pat ≠ [] := by intro he; rw [he] at hp; exact Option.noConfusion hp
    cases hpat : pat ++ r with
    | nil =>
      exfalso
      exact hpe (List.append_eq_nil.mp hpat).1
    | cons c u =>
      rw [List.nil_append, hpat, findSplit, ← hpat]
      rw [if_pos (by rw [List.isPrefixOf_iff_prefix]; exact List.prefix_append _ _)]
      rw [List.drop_left]
  | cons c t ih =>
    intro r hmem
    have hc : c ≠ h := fun he => hmem (he ▸ List.mem_cons_self c t)
    have hnp : pat.isPrefixOf (c :: (t ++ pat ++ r)) = false := by
      cases pat with
      | nil => simp at hp
      | cons p ps =>
        have hph : p = h := by simpa using hp
        subst hph
        simp only [List.isPrefixOf, Bool.and_eq_false_iff]
        left
        rw [beq_eq_false_iff_ne]
        exact hc.symm
    rw [List.cons_append, List.cons_append, findSplit, hnp]
    simp only [Bool.false_eq_true, if_false]
    rw [ih (fun hm => hmem (List.mem_cons_of_mem c hm))]
    rfl

lemma scanRep_succ (m : RSt → Str → Option (Str × Str × RSt)) (f : Nat) (st : RSt) (s : Str) :
    scanRep m (f + 1) st s =
      match m st s with
      | some (rep, rest, st') => ((scanRep m f st' rest).1, rep ++ (scanRep m f st' rest).2)
      | none =>
        match s with
        | [] => (st, [])
        | c :: t => ((scanRep m f st t).1, c :: (scanRep m f st t).2) := rfl

lemma shrink_nil_none {m : RSt → Str → Option (Str × Str × RSt)}
    (hshrink : ∀ st s r t st', m st s = some (r, t, st') → t.length < s.length)
    (st : RSt) : m st [] = none := by
  cases hmm : m st [] with
  | none => rfl
  | some r =>
    obtain ⟨a, b, c⟩ := r
    have := hshrink _ _ _ _ _ hmm
    simp at this

lemma scanRep_congr_fuel (m : RSt → Str → Option (Str × Str × RSt))
    (hshrink : ∀ st s r t st', m st s = some (r, t, st') → t.length < s.length) :
    ∀ f₁ f₂ st s, s.length ≤ f₁ → s.length ≤ f₂ →
      scanRep m f₁ st s = scanRep m f₂ st s := by
  intro f₁
  induction f₁ with
  | zero =>
    intro f₂ st s h1 _
    have hs : s = [] := List.eq_nil_of_length_eq_zero (by omega)
    subst hs
    cases f₂ with
    | zero => rfl
    | succ g => rw [scanRep_succ, shrink_nil_none hshrink]; rfl
  | succ f ih =>
    intro f₂ st s h1 h2
    cases s with
    | nil =>
      cases f₂ with
      | zero => rw [scanRep_succ, shrink_nil_none hshrink]; rfl
      | succ g => rw [scanRep_succ, scanRep_succ, shrink_nil_none hshrink]
    | cons c t =>
      cases f₂ with
      | zero => simp at h2
      | succ g =>
        rw [scanRep_succ, scanRep_succ]
        cases hm : m st (c :: t) with
        | some r =>
          obtain ⟨rep, rest, st'⟩ := r
          have := hshrink _ _ _ _ _ hm
          have hl : t.length + 1 ≤ f + 1 := by simpa using h1
          have hl2 : t.length + 1 ≤ g + 1 := by simpa using h2
          dsimp only
          rw [ih g st' rest (by omega) (by omega)]
        | none =>
          have hl : t.length + 1 ≤ f + 1 := by simpa using h1
          have hl2 : t.length + 1 ≤ g + 1 := by simpa using h2
          dsimp only
          rw [ih g st t (by omega) (by omega)]

lemma runRule_match {m : RSt → Str → Option (Str × Str × RSt)}
    (hshrink : ∀ st s r t st', m st s = some (r, t, st') → t.length < s.length)
    {st s rep rest st'} (hm : m st s = some (rep, rest, st')) :
    runRule m st s = ((runRule m st' rest).1, rep ++ (runRule m st' rest).2) := by
  have hlt := hshrink _ _ _ _ _ hm
  rw [runRule, scanRep_succ, hm, runRule]
  dsimp only
  rw [scanRep_congr_fuel m hshrink s.length (rest.length + 1) st' rest (by omega) (by omega)]

lemma runRule_char {m : RSt → Str → Option (Str × Str × RSt)}
    (hshrink : ∀ st s r t st', m st s = some (r, t, st') → t.length < s.length)
    {st c t} (hm : m st (c :: t) = none) :
    runRule m st (c :: t) = ((runRule m st t).1, c :: (runRule m st t).2) := by
  rw [runRule, scanRep_succ, hm, runRule]
  dsimp only
  rw [scanRep_congr_fuel m hshrink (c :: t).length (t.length + 1) st t (by simp) (by omega)]

lemma runRule_nil {m : RSt → Str → Option (Str × Str × RSt)}
    {st} (hm : m st [] = none) : runRule m st [] = (st, []) := by
  rw [runRule, scanRep_succ, hm]

lemma isPrefixOf_append_self (p x : Str) : p.isPrefixOf (p ++ x) = true := by
  rw [List.isPrefixOf_iff_prefix]; exact List.prefix_append _ _

lemma findSplit1_length {pat a b X : Str} (hp : pat ≠ [])
    (h : findSplit1 pat X = some (a, b)) : b.length < X.length := by
  cases X with
  | nil => simp [findSplit1] at h
  | cons c x =>
    simp only [findSplit1, Option.map_eq_some'] at h
    obtain ⟨⟨a', b'⟩, hfs, hab⟩ := h
    have h2 : b = b' := by
      have := congrArg Prod.snd hab
      simpa using this.symm
    subst h2
    have := findSplit_length hp hfs
    simp
    omega

lemma findSplit1_marker {h : Char} {pat : Str} (hph : pat.head? = some h)
    {t r : Str} (hne : t ≠ []) (hmem : h ∉ t) :
    findSplit1 pat (t ++ (pat ++ r)) = some (t, r) := by
  cases t with
  | nil => exact absurd rfl hne
  | cons c t' =>
    have hm' : h ∉ t' := fun hx => hmem (List.mem_cons_of_mem c hx)
    have := @findSplit_marker h pat hph t' r hm'
    rw [List.cons_append, findSplit1]
    rw [List.append_assoc] at this
    rw [this]
    rfl

lemma fnMatcher_shrink : ∀ (st : RSt) (s r t : Str) (st' : RSt),
    fnMatcher st s = some (r, t, st') → t.length < s.length := by
  intro st s r t st' h
  rw [fnMatcher] at h
  split at h
  · next hpre =>
    rw [List.isPrefixOf_iff_prefix] at hpre
    obtain ⟨x, hx⟩ := hpre
    have hdrop : s.drop 2 = x := by rw [← hx]; rfl
    have hlen : s.length = x.length + 2 := by rw [← hx]; simp [cs]
    split at h
    · next note rest hfs =>
      rw [hdrop] at hfs
      have hrest := findSplit1_length (by decide) hfs
      split at h
      · exact Option.noConfusion h
      · split at h
        · injection h with h'
          have : t = rest := by
            have := congrArg (fun z => z.2.1) h'
            simpa using this.symm
          subst this
          omega
        · split at h <;>
          · injection h with h'
            have : t = rest := by
              have := congrArg (fun z => z.2.1) h'
              simpa using this.symm
            subst this
            omega
    · exact Option.noConfusion h
  · exact Option.noConfusion h

lemma fnMatcher_none_head {st : RSt} {c : Char} {x : Str} (hc : c ≠ '(') :
    fnMatcher st (c :: x) = none := by
  have hpre : (cs "((").isPrefixOf (c :: x) = false := by
    have : cs "((" = '(' :: '(' :: [] := rfl
    rw [this, List.isPrefixOf, Bool.and_eq_false_iff]
    left
    rw [beq_eq_false_iff_ne]
    exact fun he => hc he.symm
  rw [fnMatcher, hpre]
  simp

lemma fnMatcher_none_nil {st : RSt} : fnMatcher st [] = none := by
  rw [fnMatcher]
  rfl

lemma jsTrim_nonempty_ne_nil {t : Str} (h : (jsTrim t).isEmpty = false) : t ≠ [] := by
  intro he
  subst he
  simp [jsTrim] at h

/-- The footnote matcher on an explicit citation: the note is registered
at the next index when new, the existing index is reused otherwise. -/
lemma fnMatcher_cite {t : Str} (r : Str) (st : RSt)
    (hp : ')' ∉ t) (hn : '\n' ∉ t) (hne : (jsTrim t).isEmpty = false) :
    fnMatcher st (cs "((" ++ (t ++ (cs "))" ++ r))) =
      some ((match idxOf t st.fns with
              | some i => fnRef i
              | none => fnRef st.fns.length), r,
        (match idxOf t st.fns with
          | some _ => st
          | none => { st with fns := st.fns ++ [t] })) := by
  have hdrop : (cs "((" ++ (t ++ (cs "))" ++ r))).drop 2 = t ++ (cs "))" ++ r) := rfl
  rw [fnMatcher, isPrefixOf_append_self, if_pos rfl, hdrop,
    findSplit1_marker (show (cs "))").head? = some ')' from rfl)
      (jsTrim_nonempty_ne_nil hne) hp]
  dsimp only
  rw [contains_eq_false_of_not_mem hn]
  simp only [Bool.false_eq_true, if_false, hne]
  cases hidx : idxOf t st.fns <;> simp [hidx]

lemma rowLoop_succ (ap : RSt → Str → RSt × Str) (tag : Str)
    (cells aligns taligns : List Str) (f j : Nat) (rs : List Int) (rst : RSt) :
    rowLoop ap tag cells aligns taligns (f + 1) j rs rst =
      (if j < cells.length then
        if 0 < rs.getD j 0 then
          rowLoop ap tag cells aligns taligns f (j + 1) (rs.set j (rs.getD j 0 - 1)) rst
        else
          let cell := cells.getD j []
          let emptyRun := ((cells.drop (j + 1)).takeWhile (fun c => c.isEmpty)).length
          let k := j + 1 + emptyRun
          let colspan := 1 + emptyRun
          if cell = cs ":::" then
            rowLoop ap tag cells aligns taligns f (j + 1) (rs.set j (rs.getD j 0 - 1)) rst
          else
            let isRun := !cell.isEmpty && cell.all (fun c => c = ':')
            let rowspanAttr := if isRun then cs " rowspan=" ++ q (natDigits cell.length) else []
            let rs1 := if isRun then rs.set j ((cell.length : Int) - 1) else rs
            let cell1 := if isRun then [] else cell
            let ar := ap rst cell1
            let alignClass :=
              if !(aligns.getD j []).isEmpty then aligns.getD j []
              else if j < taligns.length then taligns.getD j []
              else cs "leftalign"
            let classAttr := cs " class=" ++ q (cs "col" ++ natDigits j ++ cs " " ++ alignClass)
            let colspanAttr := if 1 < colspan then cs " colspan=" ++ q (natDigits colspan) else []
            let r := rowLoop ap tag cells aligns taligns f k rs1 ar.1
            (cs "<" ++ tag ++ rowspanAttr ++ colspanAttr ++ classAttr ++ cs ">" ++ ar.2 ++
                cs "</" ++ tag ++ cs ">" ++ r.1,
              colspan :: r.2.1, r.2.2.1, r.2.2.2)
      else ([], [], rs, rst)) := rfl

lemma getD_replicate_zero : ∀ (n i : Nat), (List.replicate n (0 : Int)).getD i 0 = 0
  | 0, _ => rfl
  | _ + 1, 0 => rfl
  | n + 1, i + 1 => getD_replicate_zero n i

/-- With a fresh (all-zero) rowspan state and no rowspan-marker cell (a
nonempty cell made of colons, which covers both the `:::` continuation
and a rowspan opener), the colspans the cell loop emits from position j
sum to the number of remaining cell positions. -/
lemma rowLoop_sum (ap : RSt → Str → RSt × Str) (tag : Str)
    (cells aligns taligns : List Str)
    (hcol : ∀ c ∈ cells, ¬(c ≠ [] ∧ c.all (fun x => x = ':') = true)) :
    ∀ (f j : Nat) (rs : List Int) (rst : RSt),
      cells.length - j < f → (∀ i, rs.getD i 0 = 0) →
      ((rowLoop ap tag cells aligns taligns f j rs rst).2.1).sum = cells.length - j := by
  intro f
  induction f with
  | zero =>
    intro j rs rst hf _
    exact absurd hf (by omega)
  | succ f ih =>
    intro j rs rst hf hrs
    rw [rowLoop_succ]
    by_cases hj : j < cells.length
    · rw [if_pos hj, hrs j, if_neg (lt_irrefl 0)]
      dsimp only
      have hmem : cells.getD j [] ∈ cells := by
        rw [List.getD_eq_getElem?_getD, List.getElem?_eq_getElem hj, Option.getD_some]
        exact List.getElem_mem hj
      have hc := hcol _ hmem
      have hcss : cells.getD j [] ≠ cs ":::" := by
        intro he
        exact hc ⟨by rw [he]; decide, by rw [he]; decide⟩
      rw [if_neg hcss]
      have hrun : (!(cells.getD j []).isEmpty &&
          (cells.getD j []).all (fun c => c = ':')) = false := by
        cases hbe : (cells.getD j []).isEmpty with
        | true => simp
        | false =>
          cases hall : (cells.getD j []).all (fun c => c = ':') with
          | false => simp
          | true =>
            refine absurd ⟨fun h => ?_, hall⟩ hc
            rw [h] at hbe
            simp at hbe
      rw [hrun]
      simp only [Bool.false_eq_true, if_false]
      have hle : ((cells.drop (j + 1)).takeWhile (fun c => c.isEmpty)).length ≤
          cells.length - (j + 1) := by
        have h1 : ((cells.drop (j + 1)).takeWhile (fun c : Str => c.isEmpty)).length ≤
            (cells.drop (j + 1)).length := (List.takeWhile_sublist _).length_le
        rw [List.length_drop] at h1
        exact h1
      rw [List.sum_cons,
        ih (j + 1 + ((cells.drop (j + 1)).takeWhile (fun c => c.isEmpty)).length)
          rs ((ap rst (cells.getD j [])).1) (by omega) hrs]
      omega
    · rw [if_neg hj]
      simp only [List.sum_nil]
      omega

lemma scanRep_inert (m : RSt → Str → Option (Str × Str × RSt)) :
    ∀ (f : Nat) (st : RSt) (s : Str),
      (∀ st' t, t <:+ s → m st' t = none) → s.length < f →
      scanRep m f st s = (st, s) := by
  intro f
  induction f with
  | zero =>
    intro st s _ hf
    exact absurd hf (by omega)
  | succ f ih =>
    intro st s hm hf
    cases s with
    | nil =>
      rw [scanRep_succ, hm st [] List.nil_suffix]
    | cons c t =>
      rw [scanRep_succ, hm st (c :: t) (List.suffix_refl _)]
      dsimp only
      rw [ih st t (fun st' u hu => hm st' u (hu.trans (List.suffix_cons c t)))
        (by simpa using hf)]

lemma runRule_inert {m : RSt → Str → Option (Str × Str × RSt)} {st : RSt} {s : Str}
    (hm : ∀ st' t, t <:+ s → m st' t = none) : runRule m st s = (st, s) :=
  scanRep_inert m (s.length + 1) st s hm (by omega)

lemma nowikiMatcher_none {st : RSt} {t : Str} (h : '<' ∉ t) :
    nowikiMatcher st t = none := by
  cases t with
  | nil => rfl
  | cons c x =>
    have hc : c ≠ '<' := fun he => h (he ▸ List.mem_cons_self c x)
    have hpre : (cs "<nowiki>").isPrefixOf (c :: x) = false := by
      have : cs "<nowiki>" = '<' :: cs "nowiki>" := rfl
      rw [this, List.isPrefixOf, Bool.and_eq_false_iff]
      left
      rw [beq_eq_false_iff_ne]
      exact fun he => hc he.symm
    rw [nowikiMatcher, hpre]
    simp

lemma fnMatcher_none_paren {st : RSt} {t : Str} (h : '(' ∉ t) :
    fnMatcher st t = none := by
  cases t with
  | nil => exact fnMatcher_none_nil
  | cons c x =>
    exact fnMatcher_none_head (fun he => h (he ▸ List.mem_cons_self c x))

lemma nowikiMatcher_shrink : ∀ (st : RSt) (s r t : Str) (st' : RSt),
    nowikiMatcher st s = some (r, t, st') → t.length < s.length := by
  intro st s r t st' h
  rw [nowikiMatcher] at h
  split at h
  · next hpre =>
    rw [List.isPrefixOf_iff_prefix] at hpre
    obtain ⟨x, hx⟩ := hpre
    split at h
    · next content rest hfs =>
      injection h with h'
      have ht : t = rest := by
        have := congrArg (fun z => z.2.1) h'
        simpa using this.symm
      subst ht
      have h1 := findSplit_length (by decide) hfs
      have h2 : (s.drop 8).length ≤ s.length := by
        rw [List.length_drop]
        omega
      omega
    · exact Option.noConfusion h
  · exact Option.noConfusion h

lemma percentMatcher_shrink : ∀ (st : RSt) (s r t : Str) (st' : RSt),
    percentMatcher st s = some (r, t, st') → t.length < s.length := by
  intro st s r t st' h
  rw [percentMatcher] at h
  split at h
  · next hpre =>
    rw [List.isPrefixOf_iff_prefix] at hpre
    obtain ⟨x, hx⟩ := hpre
    split at h
    · next content rest hfs =>
      injection h with h'
      have ht : t = rest := by
        have := congrArg (fun z => z.2.1) h'
        simpa using this.symm
      subst ht
      have h1 := findSplit_length (by decide) hfs
      have h2 : (s.drop 2).length ≤ s.length := by
        rw [List.length_drop]
        omega
      omega
    · exact Option.noConfusion h
  · exact Option.noConfusion h

/-- The nowiki matcher on an explicit wrap whose content holds no angle
bracket: the raw content is pushed and the placeholder token stands in. -/
lemma nowikiMatcher_cite (st : RSt) (C : Str) (h : '<' ∉ C) :
    nowikiMatcher st (cs "<nowiki>" ++ (C ++ cs "</nowiki>")) =
      some (cs "[NOWIKI_" ++ natDigits st.nowikis.length ++ cs "]", [],
        { st with nowikis := st.nowikis ++ [C] }) := by
  have hdrop : (cs "<nowiki>" ++ (C ++ cs "</nowiki>")).drop 8 = C ++ cs "</nowiki>" := rfl
  have hfs := @findSplit_marker '<' (cs "</nowiki>") rfl C [] h
  rw [List.append_nil] at hfs
  rw [nowikiMatcher, isPrefixOf_append_self, if_pos rfl, hdrop, hfs]

lemma percentMatcher_cite (st : RSt) (C : Str) (h : '%' ∉ C) :
    percentMatcher st (cs "%%" ++ (C ++ cs "%%")) =
      some (cs "[PERCENT_" ++ natDigits st.percents.length ++ cs "]", [],
        { st with percents := st.percents ++ [C] }) := by
  have hdrop : (cs "%%" ++ (C ++ cs "%%")).drop 2 = C ++ cs "%%" := rfl
  have hfs := @findSplit_marker '%' (cs "%%") rfl C [] h
  rw [List.append_nil] at hfs
  rw [percentMatcher, isPrefixOf_append_self, if_pos rfl, hdrop, hfs]

lemma not_mem_replaceAllAux {c : Char} {pat rep : Str} (hrep : c ∉ rep) :
    ∀ (f : Nat) (s : Str), c ∉ s → c ∉ replaceAllAux pat rep f s := by
  intro f
  induction f with
  | zero => intro s hs; exact hs
  | succ f ih =>
    intro s hs
    cases s with
    | nil => simp [replaceAllAux]
    | cons d x =>
      rw [replaceAllAux]
      split
      · intro hmem
        rcases List.mem_append.mp hmem with hr | ht
        · exact hrep hr
        · exact ih _ (fun hd => hs (List.mem_of_mem_drop hd)) ht
      · intro hmem
        rcases List.mem_cons.mp hmem with he | ht
        · exact hs (he ▸ List.mem_cons_self d x)
        · exact ih _ (fun hd => hs (List.mem_cons_of_mem d hd)) ht

lemma not_mem_replaceAll {c : Char} {pat rep s : Str} (hrep : c ∉ rep) (hs : c ∉ s) :
    c ∉ replaceAll pat rep s :=
  not_mem_replaceAllAux hrep s.length s hs

/-- Entity escaping introduces no parenthesis. -/
lemma paren_not_mem_escapeEntities {C : Str} (h : '(' ∉ C) :
    '(' ∉ escapeEntities C := by
  rw [escapeEntities]
  exact not_mem_replaceAll (by decide)
    (not_mem_replaceAll (by decide)
      (not_mem_replaceAll (by decide)
        (not_mem_replaceAll (by decide)
          (not_mem_replaceAll (by decide) h))))

lemma foldl_inert (s : Str) : ∀ (rules : List (RSt → Str → RSt × Str)) (st : RSt),
    (∀ r ∈ rules, ∀ st', r st' s = (st', s)) →
    rules.foldl (fun a rule => rule a.1 a.2) (st, s) = (st, s) := by
  intro rules
  induction rules with
  | nil => intro st _; rfl
  | cons r rest ih =>
    intro st h
    rw [List.foldl_cons]
    dsimp only
    rw [h r (List.mem_cons_self _ _) st]
    exact ih st (fun r' hr' st' => h r' (List.mem_cons_of_mem _ hr') st')

lemma findSplit_none {h : Char} {pat : Str} (hp : pat.head? = some h) :
    ∀ {s : Str}, h ∉ s → findSplit pat s = none := by
  intro s
  induction s with
  | nil =>
    intro _
    have hpe : pat ≠ [] := by
      intro he
      rw [he] at hp
      exact Option.noConfusion hp
    rw [findSplit, if_neg hpe]
  | cons c t ih =>
    intro hm
    have hc : c ≠ h := fun he => hm (he ▸ List.mem_cons_self c t)
    have hnp : pat.isPrefixOf (c :: t) = false := by
      cases pat with
      | nil => simp at hp
      | cons p ps =>
        have hph : p = h := by simpa using hp
        rw [List.isPrefixOf, Bool.and_eq_false_iff]
        left
        rw [beq_eq_false_iff_ne, hph]
        exact fun he => hc he.symm
    rw [findSplit, hnp]
    simp only [Bool.false_eq_true, if_false]
    rw [ih (fun hx => hm (List.mem_cons_of_mem c hx))]
    rfl

lemma replaceFirst_marker {h : Char} {pat : Str} (hp : pat.head? = some h)
    {A B rep : Str} (hA : h ∉ A) :
    replaceFirst pat rep (A ++ pat ++ B) = A ++ rep ++ B := by
  rw [replaceFirst, findSplit_marker hp hA]

/-- A replacement without a dollar sign is substituted verbatim. -/
lemma expandRep_no_dollar (matched before after : Str) :
    ∀ rep : Str, '$' ∉ rep → expandRep matched before after rep = rep := by
  intro rep
  induction rep with
  | nil => intro _; rfl
  | cons c rest ih =>
    intro h
    have hc : c ≠ '$' := fun he => h (he ▸ List.mem_cons_self c rest)
    rw [expandRep.eq_def]
    dsimp only
    rw [if_neg hc, ih (fun hx => h (List.mem_cons_of_mem c hx))]

/-- Entity escaping introduces no dollar sign. -/
lemma dollar_not_mem_escapeEntities {C : Str} (h : '$' ∉ C) :
    '$' ∉ escapeEntities C := by
  rw [escapeEntities]
  exact not_mem_replaceAll (by decide)
    (not_mem_replaceAll (by decide)
      (not_mem_replaceAll (by decide)
        (not_mem_replaceAll (by decide)
          (not_mem_replaceAll (by decide) h))))

lemma replaceFirstD_marker {h : Char} {pat : Str} (hp : pat.head? = some h)
    {A B rep : Str} (hA : h ∉ A) (hrep : '$' ∉ rep) :
    replaceFirstD pat rep (A ++ pat ++ B) = A ++ rep ++ B := by
  rw [replaceFirstD, findSplit_marker hp hA]
  dsimp only
  rw [expandRep_no_dollar pat A B rep hrep]

lemma mem_splice {c : Char} : ∀ (pieces links : List Str), c ∈ splice pieces links →
    (∃ p ∈ pieces, c ∈ p) ∨ (∃ l ∈ links, c ∈ l) := by
  intro pieces
  induction pieces with
  | nil =>
    intro links h
    cases links <;> simp [splice] at h
  | cons a rest ih =>
    intro links h
    cases links with
    | nil =>
      cases rest with
      | nil =>
        rw [splice] at h
        exact Or.inl ⟨a, List.mem_cons_self a [], h⟩
      | cons b r2 => simp [splice] at h
    | cons l ls =>
      rw [splice] at h
      rcases List.mem_append.mp h with h1 | h2
      · exact Or.inl ⟨a, List.mem_cons_self a rest, h1⟩
      · rcases List.mem_append.mp h2 with h3 | h4
        · exact Or.inr ⟨l, List.mem_cons_self l ls, h3⟩
        · rcases ih ls h4 with ⟨p, hpm, hcp⟩ | ⟨l', hlm, hcl⟩
          · exact Or.inl ⟨p, List.mem_cons_of_mem a hpm, hcp⟩
          · exact Or.inr ⟨l', List.mem_cons_of_mem l hlm, hcl⟩

/-- The final link pass on a canonically shaped result with dollar-free
anchors: every token is replaced exactly once, left to right, index by
index, each anchor substituted verbatim. -/
lemma resolveLinks_splice : ∀ (links pieces : List Str) (i : Nat) (pre : Str),
    pieces.length = links.length + 1 →
    '[' ∉ pre → (∀ p ∈ pieces, '[' ∉ p) → (∀ l ∈ links, '[' ∉ l ∧ '$' ∉ l) →
    resolveLinks i links (pre ++ linkTokForm i pieces) = pre ++ splice pieces links := by
  intro links
  induction links with
  | nil =>
    intro pieces i pre hlen hpre hp hl
    cases pieces with
    | nil => simp at hlen
    | cons a rest =>
      cases rest with
      | nil => rw [resolveLinks, linkTokForm, splice]
      | cons b r2 => simp at hlen
  | cons l ls ih =>
    intro pieces i pre hlen hpre hp hl
    cases pieces with
    | nil => simp at hlen
    | cons a rest =>
      cases rest with
      | nil => simp at hlen
      | cons b r2 =>
        rw [resolveLinks, linkTokForm]
        rw [show pre ++ (a ++ ((cs "[LINK_" ++ natDigits i ++ cs "]") ++
            linkTokForm (i + 1) (b :: r2))) =
          ((pre ++ a) ++ (cs "[LINK_" ++ natDigits i ++ cs "]")) ++
            linkTokForm (i + 1) (b :: r2) from by simp only [List.append_assoc]]
        have hA : '[' ∉ pre ++ a := by
          intro hc
          rcases List.mem_append.mp hc with h1 | h1
          · exact hpre h1
          · exact hp a (List.mem_cons_self a _) h1
        rw [replaceFirstD_marker
          (show (cs "[LINK_" ++ natDigits i ++ cs "]").head? = some '[' from rfl) hA
          (hl l (List.mem_cons_self l ls)).2]
        have hA' : '[' ∉ (pre ++ a) ++ l := by
          intro hc
          rcases List.mem_append.mp hc with h1 | h1
          · exact hA h1
          · exact (hl l (List.mem_cons_self l ls)).1 h1
        rw [ih (b :: r2) (i + 1) ((pre ++ a) ++ l) (by simpa using hlen) hA'
          (fun p hpm => hp p (List.mem_cons_of_mem a hpm))
          (fun l' hlm => hl l' (List.mem_cons_of_mem l hlm))]
        rw [splice]
        simp [List.append_assoc]
        exact fun h => List.noConfusion h

lemma rssMatcher_none {today : Str} {st : RSt} {t : Str} (h : obrace ∉ t) :
    rssMatcher today st t = none := by
  cases t with
  | nil => rfl
  | cons c x =>
    have hc : c ≠ obrace := fun he => h (he ▸ List.mem_cons_self c x)
    have hpre : ([obrace, obrace] ++ cs "rss>").isPrefixOf (c :: x) = false := by
      have hsh : [obrace, obrace] ++ cs "rss>" = obrace :: (obrace :: cs "rss>") := rfl
      rw [hsh, List.isPrefixOf, Bool.and_eq_false_iff]
      left
      rw [beq_eq_false_iff_ne]
      exact fun he => hc he.symm
    rw [rssMatcher, hpre]
    simp

lemma foldl_fire (r0 : RSt → Str → RSt × Str) (rest : List (RSt → Str → RSt × Str))
    (st0 st1 : RSt) (s tok : Str)
    (h0 : r0 st0 s = (st1, tok))
    (hrest : ∀ r ∈ rest, ∀ st', r st' tok = (st', tok)) :
    (r0 :: rest).foldl (fun a rule => rule a.1 a.2) (st0, s) = (st1, tok) := by
  rw [List.foldl_cons]
  dsimp only
  rw [h0]
  exact foldl_inert tok rest st1 hrest

/-! Claims. -/

/-- C2: footnote indices are assigned one-based in first-seen order of the
footnote text; citing the same text again reuses the existing index, emits
a second back-reference marker occurrence pointing at the shared index,
and never creates a new definition: for distinct texts t and u, the
document citing t, u, t registers exactly [t, u], renders markers 1, 2, 1
(the two occurrences of marker 1 pointing at the one definition with
index 1), and the definition list holds one block per unique text. -/
theorem C2_footnote_first_seen_dedup : ∀ t u : Str,
    ')' ∉ t → '\n' ∉ t → (jsTrim t).isEmpty = false →
    ')' ∉ u → '\n' ∉ u → (jsTrim u).isEmpty = false →
    t ≠ u →
    parseFootnotes emptyRSt
        (cs "((" ++ t ++ cs "))" ++ cs " " ++ cs "((" ++ u ++ cs "))" ++ cs " " ++
          cs "((" ++ t ++ cs "))") =
      ({ emptyRSt with fns := [t, u] },
        fnRef 0 ++ cs " " ++ fnRef 1 ++ cs " " ++ fnRef 0) ∧
    fnDefsAux 0 [t, u] = [fnDefLine 0 t, fnDefLine 1 u] := by
  intro t u hpt hnt het hpu hnu heu hne
  refine ⟨?_, by simp [fnDefsAux, het, heu]⟩
  have hin : cs "((" ++ t ++ cs "))" ++ cs " " ++ cs "((" ++ u ++ cs "))" ++ cs " " ++
        cs "((" ++ t ++ cs "))" =
      cs "((" ++ (t ++ (cs "))" ++ (' ' :: (cs "((" ++ (u ++ (cs "))" ++
        (' ' :: (cs "((" ++ (t ++ (cs "))" ++ ([] : Str))))))))))) := by
    simp only [List.append_assoc]
    rfl
  have e1 := fnMatcher_cite
    (' ' :: (cs "((" ++ (u ++ (cs "))" ++
      (' ' :: (cs "((" ++ (t ++ (cs "))" ++ ([] : Str)))))))))
    emptyRSt hpt hnt het
  rw [show idxOf t emptyRSt.fns = none from rfl] at e1
  dsimp only at e1
  have e2 := fnMatcher_cite
    (' ' :: (cs "((" ++ (t ++ (cs "))" ++ ([] : Str)))))
    { emptyRSt with fns := [t] } hpu hnu heu
  rw [show idxOf u ({ emptyRSt with fns := [t] } : RSt).fns = none by
    simp [idxOf, if_neg hne]] at e2
  dsimp only at e2
  have e3 := fnMatcher_cite ([] : Str) { emptyRSt with fns := [t, u] } hpt hnt het
  rw [show idxOf t ({ emptyRSt with fns := [t, u] } : RSt).fns = some 0 by
    simp [idxOf]] at e3
  dsimp only at e3
  rw [parseFootnotes, hin]
  rw [runRule_match fnMatcher_shrink e1]
  rw [runRule_char fnMatcher_shrink (fnMatcher_none_head (by decide))]
  rw [show ({ emptyRSt with fns := emptyRSt.fns ++ [t] } : RSt) =
    { emptyRSt with fns := [t] } from rfl]
  rw [runRule_match fnMatcher_shrink e2]
  rw [runRule_char fnMatcher_shrink (fnMatcher_none_head (by decide))]
  rw [show ({ ({ emptyRSt with fns := [t] } : RSt) with
    fns := ({ emptyRSt with fns := [t] } : RSt).fns ++ [u] } : RSt) =
    { emptyRSt with fns := [t, u] } from rfl]
  rw [runRule_match fnMatcher_shrink e3]
  rw [runRule_nil fnMatcher_none_nil]
  rfl

theorem C2_footnote_first_seen_dedup_witness :
    (')' ∉ cs "aa" ∧ '\n' ∉ cs "aa" ∧ (jsTrim (cs "aa")).isEmpty = false ∧
      ')' ∉ cs "bb" ∧ '\n' ∉ cs "bb" ∧ (jsTrim (cs "bb")).isEmpty = false ∧
      cs "aa" ≠ cs "bb") ∧
    parseFootnotes emptyRSt
        (cs "((" ++ cs "aa" ++ cs "))" ++ cs " " ++ cs "((" ++ cs "bb" ++ cs "))" ++
          cs " " ++ cs "((" ++ cs "aa" ++ cs "))") =
      ({ emptyRSt with fns := [cs "aa", cs "bb"] },
        fnRef 0 ++ cs " " ++ fnRef 1 ++ cs " " ++ fnRef 0) ∧
    fnDefsAux 0 [cs "aa", cs "bb"] = [fnDefLine 0 (cs "aa"), fnDefLine 1 (cs "bb")] :=
  ⟨by decide,
    (C2_footnote_first_seen_dedup (cs "aa") (cs "bb") (by decide) (by decide)
      (by decide) (by decide) (by decide) (by decide) (by decide)).1,
    (C2_footnote_first_seen_dedup (cs "aa") (cs "bb") (by decide) (by decide)
      (by decide) (by decide) (by decide) (by decide) (by decide)).2⟩

set_option maxRecDepth 100000 in
/-- C4 counterexample: the literal-escape guarantee does not hold
regardless of content. A nowiki wrap whose content spans a line break is
never matched (the block machine splits the document into lines before
the inline rules run), so its pieces go through the ordinary inline
rules: the inner bold markup IS interpreted and the literal angle-bracket
tags of the construct survive raw and unescaped in the returned HTML. -/
theorem C4_literal_escape_counterexample :
    parseToday (cs "2024-01-01") (cs "<nowiki>**a**\nb</nowiki>") =
      .ok (cs "<p><nowiki><strong>a</strong> b</nowiki></p>") ∧
    containsStr (cs "<strong>")
      (cs "<p><nowiki><strong>a</strong> b</nowiki></p>") = true ∧
    containsStr (cs "<nowiki>")
      (cs "<p><nowiki><strong>a</strong> b</nowiki></p>") = true := by
  decide

set_option maxRecDepth 1000000 in
/-- C4 amended: for single-fragment content (no line break reaches the
inline engine) that does not contain an angle bracket, a percent sign,
an opening parenthesis or a dollar sign (whose escaped form would
otherwise be processed as a replacement pattern by the resolution
replace), the literal-escape constructs do round-trip: the wrapped
content is captured verbatim into the dedicated placeholder table, the
fragment is reduced to the unique placeholder token which no later rule
alters, and local resolution substitutes the HTML-escaped content
exactly, for any rule configuration and any date. -/
theorem C4_literal_escape_amended : ∀ (today ns : Str) (iw : List (Str × Str))
    (htmlok typography : Bool) (st : RSt) (C : Str),
    '<' ∉ C → '%' ∉ C → '(' ∉ C → '$' ∉ C →
    applyRules today ns iw htmlok typography st
        (cs "<nowiki>" ++ (C ++ cs "</nowiki>")) =
      ({ st with nowikis := [C], percents := [] }, escapeEntities C) ∧
    applyRules today ns iw htmlok typography st (cs "%%" ++ (C ++ cs "%%")) =
      ({ st with nowikis := [], percents := [C] }, escapeEntities C) := by
  intro today ns iw htmlok typography st C hlt hpct hpar hdol
  have h0 : rl nowikiMatcher { st with nowikis := [], percents := [] }
      (cs "<nowiki>" ++ (C ++ cs "</nowiki>")) =
      ({ st with nowikis := [C], percents := [] }, cs "[NOWIKI_0]") := by
    rw [rl, runRule_match nowikiMatcher_shrink
      (nowikiMatcher_cite { st with nowikis := [], percents := [] } C hlt),
      runRule_nil (nowikiMatcher_none (List.not_mem_nil '<'))]
    rfl
  have hnwinert : rl nowikiMatcher { st with nowikis := [], percents := [] }
      (cs "%%" ++ (C ++ cs "%%")) =
      ({ st with nowikis := [], percents := [] }, cs "%%" ++ (C ++ cs "%%")) := by
    rw [rl]
    refine runRule_inert (fun st' t ht => nowikiMatcher_none (fun hc => ?_))
    have hmem := ht.subset hc
    rcases List.mem_append.mp hmem with h | h
    · exact absurd h (by decide)
    · rcases List.mem_append.mp h with h2 | h2
      · exact hlt h2
      · exact absurd h2 (by decide)
  have h1 : rl percentMatcher { st with nowikis := [], percents := [] }
      (cs "%%" ++ (C ++ cs "%%")) =
      ({ st with nowikis := [], percents := [C] }, cs "[PERCENT_0]") := by
    rw [rl, runRule_match percentMatcher_shrink
      (percentMatcher_cite { st with nowikis := [], percents := [] } C hpct),
      runRule_nil (show percentMatcher _ [] = none from rfl)]
    rfl
  have hparesc : '(' ∉ escapeEntities C := paren_not_mem_escapeEntities hpar
  have hfnin : ∀ st1 : RSt, parseFootnotes st1 (escapeEntities C) =
      (st1, escapeEntities C) := by
    intro st1
    rw [parseFootnotes]
    exact runRule_inert
      (fun st' t ht => fnMatcher_none_paren (fun hc => hparesc (ht.subset hc)))
  refine ⟨?_, ?_⟩
  · rw [applyRules]
    have hR : (rulesList today ns iw htmlok typography).foldl (fun a rule => rule a.1 a.2)
        ({ st with nowikis := [], percents := [] },
          cs "<nowiki>" ++ (C ++ cs "</nowiki>")) =
        ({ st with nowikis := [C], percents := [] }, cs "[NOWIKI_0]") := by
      unfold rulesList
      cases typography <;>
        simp only [Bool.false_eq_true, eq_self_iff_true, if_false, if_true,
          List.cons_append, List.nil_append, List.append_nil] <;>
        exact foldl_fire _ _ _ _ _ _ h0 (by intro r hr st'; fin_cases hr <;> rfl)
    rw [hR]
    dsimp only
    rw [show resolveTokensEsc (cs "[NOWIKI_") 0 [C] (cs "[NOWIKI_0]") =
        expandRep (cs "[NOWIKI_" ++ natDigits 0 ++ cs "]") [] [] (escapeEntities C) ++ []
        from rfl,
      expandRep_no_dollar _ _ _ _ (dollar_not_mem_escapeEntities hdol), List.append_nil]
    rw [show ∀ s : Str, resolveTokensEsc (cs "[PERCENT_") 0 [] s = s from fun s => rfl]
    exact hfnin _
  · rw [applyRules]
    have hR : (rulesList today ns iw htmlok typography).foldl (fun a rule => rule a.1 a.2)
        ({ st with nowikis := [], percents := [] }, cs "%%" ++ (C ++ cs "%%")) =
        ({ st with nowikis := [], percents := [C] }, cs "[PERCENT_0]") := by
      unfold rulesList
      cases typography <;>
        simp only [Bool.false_eq_true, eq_self_iff_true, if_false, if_true,
          List.cons_append, List.nil_append, List.append_nil] <;>
        (rw [List.foldl_cons]; dsimp only; rw [hnwinert]) <;>
        exact foldl_fire _ _ _ _ _ _ h1 (by intro r hr st'; fin_cases hr <;> rfl)
    rw [hR]
    dsimp only
    rw [show ∀ s : Str, resolveTokensEsc (cs "[NOWIKI_") 0 [] s = s from fun s => rfl]
    rw [show resolveTokensEsc (cs "[PERCENT_") 0 [C] (cs "[PERCENT_0]") =
        expandRep (cs "[PERCENT_" ++ natDigits 0 ++ cs "]") [] [] (escapeEntities C) ++ []
        from rfl,
      expandRep_no_dollar _ _ _ _ (dollar_not_mem_escapeEntities hdol), List.append_nil]
    exact hfnin _

theorem C4_literal_escape_amended_witness :
    ('<' ∉ cs "**x**" ∧ '%' ∉ cs "**x**" ∧ '(' ∉ cs "**x**" ∧ '$' ∉ cs "**x**") ∧
    applyRules (cs "2024-01-01") [] [] true true emptyRSt
        (cs "<nowiki>" ++ (cs "**x**" ++ cs "</nowiki>")) =
      ({ emptyRSt with nowikis := [cs "**x**"], percents := [] },
        escapeEntities (cs "**x**")) ∧
    applyRules (cs "2024-01-01") [] [] true true emptyRSt
        (cs "%%" ++ (cs "**x**" ++ cs "%%")) =
      ({ emptyRSt with nowikis := [], percents := [cs "**x**"] },
        escapeEntities (cs "**x**")) :=
  ⟨by decide,
    (C4_literal_escape_amended (cs "2024-01-01") [] [] true true emptyRSt (cs "**x**")
      (by decide) (by decide) (by decide) (by decide)).1,
    (C4_literal_escape_amended (cs "2024-01-01") [] [] true true emptyRSt (cs "**x**")
      (by decide) (by decide) (by decide) (by decide)).2⟩

set_option maxRecDepth 100000 in
/-- C5 counterexample: a surviving placeholder token in the returned
HTML. When the source text itself contains the literal character
sequence `[LINK_0]` next to a real link, the final pass replaces the
first occurrence of the token — the user's literal text — so the anchor
lands in the wrong place and the token the link rule emitted survives in
the returned HTML. -/
theorem C5_token_resolution_counterexample :
    parseToday (cs "2024-01-01") (cs "[LINK_0] [[page]]") =
      .ok (cs ("<p><a href=\x22/page\x22 class=\x22wikilink1\x22 data-wiki-id=\x22page\x22>" ++
        "page</a> [LINK_0]</p>")) ∧
    containsStr (cs "[LINK_0]")
      (cs ("<p><a href=\x22/page\x22 class=\x22wikilink1\x22 data-wiki-id=\x22page\x22>" ++
        "page</a> [LINK_0]</p>")) = true := by
  decide

/-- C5 amended: the exactly-once guarantee holds whenever the joined
result has the canonical shape the pass assumes — token-free pieces
interleaved with the stored anchors' tokens in ascending index order, as
rule application produces when the source text contains no bracket
lookalike of its own — and the anchors carry no dollar sign (which the
replacement pass would otherwise process as a substitution pattern):
then the final pass replaces each token exactly once, left to right,
and no placeholder token survives. -/
theorem C5_resolution_amended : ∀ (links pieces : List Str),
    pieces.length = links.length + 1 →
    (∀ p ∈ pieces, '[' ∉ p) → (∀ l ∈ links, '[' ∉ l ∧ '$' ∉ l) →
    resolveLinks 0 links (linkTokForm 0 pieces) = splice pieces links ∧
    containsStr (cs "[LINK_") (splice pieces links) = false := by
  intro links pieces hlen hp hl
  have hnot : '[' ∉ splice pieces links := by
    intro hc
    rcases mem_splice pieces links hc with ⟨p, hpm, hcp⟩ | ⟨l, hlm, hcl⟩
    · exact hp p hpm hcp
    · exact (hl l hlm).1 hcl
  constructor
  · have := resolveLinks_splice links pieces 0 [] hlen (List.not_mem_nil '[') hp hl
    simpa using this
  · rw [containsStr,
      findSplit_none (show (cs "[LINK_").head? = some '[' from rfl) hnot]
    rfl

theorem C5_resolution_amended_witness :
    ((cs "x " :: [cs " y"]).length = [cs "<a>z</a>"].length + 1 ∧
      (∀ p ∈ cs "x " :: [cs " y"], '[' ∉ p) ∧
      (∀ l ∈ [cs "<a>z</a>"], '[' ∉ l ∧ '$' ∉ l)) ∧
    resolveLinks 0 [cs "<a>z</a>"] (linkTokForm 0 (cs "x " :: [cs " y"])) =
      splice (cs "x " :: [cs " y"]) [cs "<a>z</a>"] ∧
    containsStr (cs "[LINK_") (splice (cs "x " :: [cs " y"]) [cs "<a>z</a>"]) = false :=
  ⟨by decide,
    (C5_resolution_amended [cs "<a>z</a>"] (cs "x " :: [cs " y"])
      (by decide) (by decide) (by decide)).1,
    (C5_resolution_amended [cs "<a>z</a>"] (cs "x " :: [cs " y"])
      (by decide) (by decide) (by decide)).2⟩

set_option maxRecDepth 100000 in
/-- C7 counterexample: parse is not a pure function of the markup and the
configuration. The rss rule reads the clock: the same rss-embed document
parsed with the same configuration on two different days returns two
different HTML strings, differing in the rendered date. -/
theorem C7_purity_counterexample :
    parseToday (cs "2024-01-01") (cs "\x7b\x7brss>a\x7bb 1\x7d\x7d") =
      .ok (cs ("<p><ul class=\x22rss\x22><li><a href=\x22a\x7bb\x22 class=\x22urlextern\x22" ++
        " rel=\x22nofollow\x22>RSS item 1</a> by Author (2024-01-01)</li></ul></p>")) ∧
    parseToday (cs "2024-01-02") (cs "\x7b\x7brss>a\x7bb 1\x7d\x7d") =
      .ok (cs ("<p><ul class=\x22rss\x22><li><a href=\x22a\x7bb\x22 class=\x22urlextern\x22" ++
        " rel=\x22nofollow\x22>RSS item 1</a> by Author (2024-01-02)</li></ul></p>")) ∧
    parseToday (cs "2024-01-01") (cs "\x7b\x7brss>a\x7bb 1\x7d\x7d") ≠
      parseToday (cs "2024-01-02") (cs "\x7b\x7brss>a\x7bb 1\x7d\x7d") := by
  decide

/-- C7 amended: the clock enters through exactly one rule. The rss rule
is inert on every fragment free of the opening-brace character, whatever
the date, and the rule arrays built for two dates are identical except at
the rss position (index 16): every other rule is date-independent, so any
two execution days agree on every brace-free fragment. -/
theorem C7_date_dependence_amended : ∀ (d₁ d₂ ns : Str) (iw : List (Str × Str))
    (htmlok typography : Bool),
    (∀ (st : RSt) (s : Str), obrace ∉ s →
      rl (rssMatcher d₁) st s = (st, s) ∧ rl (rssMatcher d₂) st s = (st, s)) ∧
    rulesList d₁ ns iw htmlok typography =
      (rulesList d₂ ns iw htmlok typography).set 16 (rl (rssMatcher d₁)) := by
  intro d₁ d₂ ns iw htmlok typography
  constructor
  · intro st s hs
    constructor <;>
      · rw [rl]
        exact runRule_inert
          (fun st' t ht => rssMatcher_none (fun hc => hs (ht.subset hc)))
  · cases typography <;> rfl

theorem C7_date_dependence_amended_witness :
    (obrace ∉ cs "plain text" ∧
      rl (rssMatcher (cs "2024-01-01")) emptyRSt (cs "plain text") =
        (emptyRSt, cs "plain text") ∧
      rl (rssMatcher (cs "2024-01-02")) emptyRSt (cs "plain text") =
        (emptyRSt, cs "plain text")) ∧
    rulesList (cs "2024-01-01") [] [] true true =
      (rulesList (cs "2024-01-02") [] [] true true).set 16
        (rl (rssMatcher (cs "2024-01-01"))) :=
  ⟨⟨by decide,
    ((C7_date_dependence_amended (cs "2024-01-01") (cs "2024-01-02") [] [] true true).1
      emptyRSt (cs "plain text") (by decide)).1,
    ((C7_date_dependence_amended (cs "2024-01-01") (cs "2024-01-02") [] [] true true).1
      emptyRSt (cs "plain text") (by decide)).2⟩,
    (C7_date_dependence_amended (cs "2024-01-01") (cs "2024-01-02") [] [] true true).2⟩

set_option maxRecDepth 100000 in
/-- C8 counterexample: in the table with rows `|a|` and `|b|c|` the rows
split into 2 and 3 cells, so the claimed column count (the maximum) is 3;
but the first row renders a single cell with colspan 2, and the second
row cells with colspans 1 and 2: the rows' colspan sums are 2 and 3, so
they cannot both equal one table-wide column count, and the first row's
sum differs from the maximum cell count. No padding to the widest row
happens; a trailing empty cell only widens the preceding cell of its own
row. -/
theorem C8_colspan_counterexample :
    rowColspans (apCfg (dfltCfg (cs "2024-01-01"))) (cs "|a|") [] emptyRSt = [2] ∧
    rowColspans (apCfg (dfltCfg (cs "2024-01-01"))) (cs "|b|c|")
        (buildRow (apCfg (dfltCfg (cs "2024-01-01"))) (cs "|a|") [] emptyRSt).2.2.1
        (buildRow (apCfg (dfltCfg (cs "2024-01-01"))) (cs "|a|") [] emptyRSt).2.2.2 =
      [1, 2] ∧
    (rowCells (cs "|a|")).length = 2 ∧
    (rowCells (cs "|b|c|")).length = 3 ∧
    ([2] : List Nat).sum ≠
      max (rowCells (cs "|a|")).length (rowCells (cs "|b|c|")).length ∧
    parseToday (cs "2024-01-01") (cs "|a|\n|b|c|") =
      .ok (cs ("<table class=\x22inline\x22><tr class=\x22row0\x22>" ++
        "<td colspan=\x222\x22 class=\x22col0 leftalign\x22>a</td></tr>" ++
        "<tr class=\x22row0\x22><td class=\x22col0 leftalign\x22>b</td>" ++
        "<td colspan=\x222\x22 class=\x22col1 leftalign\x22>c</td></tr></table>")) := by
  decide

/-- C8 amended: for every row line whose cell split contains no
rowspan-marker cell (a nonempty cell consisting only of colons, covering
both the `:::` continuation marker and a rowspan opener) and which is
built against a fresh rowspan state, the sum of the colspan values of the
row's rendered cells equals that row's own cell count — the length of the
separator split of the row, a run of trailing or inner empty cells being
absorbed into the colspan of the preceding nonempty cell. The invariant
is per row: rows of one table may have different cell counts, and no
padding to the table-wide maximum takes place. -/
theorem C8_row_colspan_amended : ∀ (ap : RSt → Str → RSt × Str) (trimmed : Str) (rst : RSt),
    (∀ c ∈ rowCells trimmed, ¬(c ≠ [] ∧ c.all (fun x => x = ':') = true)) →
    (rowColspans ap trimmed [] rst).sum = (rowCells trimmed).length := by
  intro ap trimmed rst hcol
  rw [rowColspans, buildRow, rowCells]
  dsimp only
  simp only [List.isEmpty_nil, Bool.true_or, if_true]
  rw [rowCells] at hcol
  exact rowLoop_sum ap _ _ _ _ hcol _ 0 _ rst (by omega)
    (fun i => getD_replicate_zero _ i)

theorem C8_row_colspan_amended_witness :
    (∀ c ∈ rowCells (cs "|b|c|"), ¬(c ≠ [] ∧ c.all (fun x => x = ':') = true)) ∧
    (rowColspans (fun rst c => (rst, c)) (cs "|b|c|") [] emptyRSt).sum =
      (rowCells (cs "|b|c|")).length :=
  ⟨by decide,
    C8_row_colspan_amended (fun rst c => (rst, c)) (cs "|b|c|") emptyRSt (by decide)⟩

set_option maxRecDepth 100000 in
/-- C1: the claim says parse never throws for malformed markup and always
returns an HTML string. The code violates this: flushBlocks (src line 2249)
reads the identifier codeLang, which is a local variable of parse and not
in scope inside flushBlocks, so the end-of-input flush of an unterminated
code block raises a ReferenceError instead of flushing the block. The
theorem evaluates the model of the code at the failing input. -/
theorem C1_unterminated_code_raises :
    parseToday (cs "2024-01-01") (cs "<code>\nfoo") =
      .error (cs "ReferenceError: codeLang is not defined") := by
  decide

/-- C3: the four namespace resolution vectors against the current
namespace ns1:ns2, exactly as the specification states them. -/
theorem C3_namespace_vectors :
    resolveNamespace (cs ":ns3:page") (cs "ns1:ns2") = cs "ns3:page" ∧
    resolveNamespace (cs "..:parent") (cs "ns1:ns2") = cs "ns1:parent" ∧
    resolveNamespace (cs ".:sibling") (cs "ns1:ns2") = cs "ns1:ns2:sibling" ∧
    resolveNamespace (cs ":") (cs "ns1:ns2") = cs "ns1:ns2:start" := by
  decide

/-- C9 counterexample: the cleanup deletes disallowed characters instead
of replacing them with a placeholder character (a_b resolves to the
two-character ab), an empty post-processed result stays empty instead of
resolving to a default landing page (the exclamation target), and the
deletion can even reintroduce a double colon after the collapse pass. -/
theorem C9_counterexample :
    resolveNamespace (cs "a_b") (cs "") = cs "ab" ∧
    (resolveNamespace (cs "a_b") (cs "")).length = 2 ∧
    resolveNamespace (cs "!") (cs "") = cs "" ∧
    resolveNamespace (cs "a:_:b") (cs "") = cs "a::b" := by
  decide

/-- C9 amended: resolveNamespace post-processes by collapsing colon runs,
stripping one leading and one trailing colon, and then deleting (not
replacing) every character outside ASCII letters, digits and colon - so
every character of every result is from that class; an empty result is
returned as the empty string, except that a trailing-colon start-page
request always appends the :start suffix. -/
theorem C9_cleanup_amended : ∀ t ns : Str,
    (∀ c ∈ resolveNamespace t ns, nsAllowedChar c = true) ∧
    ((cs ":").isSuffixOf t = true →
      (cs ":start").isSuffixOf (resolveNamespace t ns) = true) := by
  intro t ns
  constructor
  · intro c hc
    simp only [resolveNamespace] at hc
    by_cases h : (cs ":").isSuffixOf t = true
    · rw [if_pos h] at hc
      rcases List.mem_append.mp hc with h1 | h1
      · exact (List.mem_filter.mp h1).2
      · have hl : cs ":start" = [':', 's', 't', 'a', 'r', 't'] := rfl
        rw [hl] at h1
        fin_cases h1 <;> decide
    · rw [if_neg h] at hc
      exact (List.mem_filter.mp hc).2
  · intro h
    simp only [resolveNamespace, h, if_pos]
    exact isSuffixOf_append_self _ _

theorem C9_cleanup_amended_witness :
    (∀ c ∈ resolveNamespace (cs ":") (cs "ns1:ns2"), nsAllowedChar c = true) ∧
    (cs ":start").isSuffixOf (resolveNamespace (cs ":") (cs "ns1:ns2")) = true :=
  ⟨(C9_cleanup_amended (cs ":") (cs "ns1:ns2")).1,
    (C9_cleanup_amended (cs ":") (cs "ns1:ns2")).2 (by decide)⟩

set_option maxRecDepth 100000 in
/-- C6 counterexample: the heading levels the code produces for balanced
runs of two to six equals signs are 5, 4, 3, 2, 1 - determined inversely,
but never reaching level 6, so the produced levels range over 1 to 5 only
(the spec matrix mapping run length 2 to level 6 disagrees with the code
already at run length 2, as the parse-level conjunct shows). -/
theorem C6_level_counterexample :
    headerLevelOf (cs "== t ==") = some 5 ∧
    headerLevelOf (cs "=== t ===") = some 4 ∧
    headerLevelOf (cs "==== t ====") = some 3 ∧
    headerLevelOf (cs "===== t =====") = some 2 ∧
    headerLevelOf (cs "====== t ======") = some 1 ∧
    parseToday (cs "2024-01-01") (cs "== t ==") =
      .ok (cs "<h5 class=\x22sectionedit5\x22 id=\x22t\x22>t</h5>") := by
  decide

/-- C6 amended: for a header line that is a balanced run of n equals signs
(2 ≤ n ≤ 6) around content free of equals signs and newlines, the emitted
heading level is exactly 7 - n: inverse in the run length, and ranging
over 1 to 5 (level 6 is never produced by such lines). -/
theorem C6_header_level_amended : ∀ (n : Nat) (m : Str), 2 ≤ n → n ≤ 6 →
    '=' ∉ m → '\n' ∉ m →
    headerLevelOf (List.replicate n '=' ++ m ++ List.replicate n '=') = some (7 - n) ∧
    1 ≤ 7 - n ∧ 7 - n ≤ 5 := by
  intro n m h2 h6 hme hnl
  have hm := headerMatch_wrap h2 hnl
  have hcnt := @count_wrap n m hme
  refine ⟨?_, by omega, by omega⟩
  simp only [headerLevelOf, headerParse, hm, if_pos, hcnt, Option.map_some']
  congr 1
  interval_cases n <;> decide

theorem C6_header_level_amended_witness :
    headerLevelOf (List.replicate 2 '=' ++ cs " t " ++ List.replicate 2 '=') = some 5 ∧
    1 ≤ 7 - 2 ∧ 7 - 2 ≤ 5 := by
  have h := C6_header_level_amended 2 (cs " t ") (by decide) (by decide)
    (by decide) (by decide)
  exact h

/-- C10: parse of the empty string returns the empty string with no
paragraph, container or footnote element, and a paragraph buffer whose
joined content trims to nothing is dropped by flushBlocks rather than
emitted as a paragraph element. -/
theorem C10_empty_input :
    parseToday (cs "2024-01-01") (cs "") = .ok (cs "") ∧
    (∀ pb : List Str, (jsTrim (List.intercalate (cs " ") pb)).isEmpty = true →
      flushBlocks { initPSt with paragraphBuffer := pb } = .ok initPSt) := by
  constructor
  · decide
  · intro pb hpb
    by_cases h : pb.isEmpty
    · rw [List.isEmpty_iff] at h
      subst h
      decide
    · simp only [flushBlocks, initPSt]
      simp [h, hpb]

theorem C10_empty_input_witness :
    (jsTrim (List.intercalate (cs " ") [[], cs " "])).isEmpty = true ∧
    flushBlocks { initPSt with paragraphBuffer := [[], cs " "] } = .ok initPSt :=
  ⟨by decide, (C10_empty_input).2 [[], cs " "] (by decide)⟩

end DokuParserJS
